import Mathlib

/-!
Verification of the POS (point-of-sale) store manager (`app.py`).

The program keeps three tables in session state: `products`
(product_id, product_name, original_price, selling_price, stock),
`orders` (order_id, date, serialized line items, total) and
`expenses` (amounts).  The form handlers for creating, editing,
deleting and refunding orders are embedded below as pure functions on
an explicit state.  Real-valued columns are modelled as `ℚ`, the
integer `stock` column as `ℤ`, and line-item quantities (positive
integers in the UI) as `ℕ`.  The serialized `products` column of an
order (`"name: qty | name: qty"`) is modelled structurally as a list
of (name, quantity) pairs.
-/

/-- One row of the `products` table. -/
structure Product where
  product_id : String
  product_name : String
  original_price : ℚ
  selling_price : ℚ
  stock : ℤ
deriving Repr, DecidableEq

/-- A line item: one `"name: qty"` component of an order's serialized
`products` column. -/
abbrev LineItem := String × ℕ

/-- One row of the `orders` table; `items` models the serialized
`products` column. -/
structure Order where
  order_id : String
  date : String
  items : List LineItem
  total : ℚ
deriving Repr, DecidableEq

/-- The session state: the three data tables (only expense amounts
are relevant to the dashboard computations). -/
structure PosState where
  products : List Product
  orders : List Order
  expenses : List ℚ
deriving Repr, DecidableEq

/-- The error outcomes a form handler can surface via `st.error` /
an exception caught by the handler's `try`/`except` block. -/
inductive PosError where
  /-- `qty > current_stock` in the create/edit loop: the message names
  the product, the requested quantity and the available stock. -/
  | insufficientStock (product : String) (requested : ℕ) (available : ℤ)
  /-- Create submitted with no selected products. -/
  | emptyOrder
  /-- Refund submitted with every refund quantity zero
  (`refund_items` empty). -/
  | emptyRefund
  /-- `.iloc[0]` on an empty selection: the product name is absent
  from the catalog (raises, caught by the surrounding `except`). -/
  | productLookupFailed (product : String)
  /-- The selected order id matches no row. -/
  | orderNotFound (oid : String)
deriving Repr, DecidableEq

/-- `products[products["اسم المنتج"] == name].iloc[0]`: the first
catalog row whose name matches. -/
def findProduct (ps : List Product) (name : String) : Option Product :=
  (ps.filter (fun p => p.product_name = name)).head?

/-- `products.loc[products["اسم المنتج"] == name, "المخزون"] += δ`:
adjust the stock of every catalog row whose name matches. -/
def adjustStock (ps : List Product) (name : String) (δ : ℤ) : List Product :=
  ps.map (fun p => if p.product_name = name then { p with stock := p.stock + δ } else p)

/-- `name in products["اسم المنتج"].values`. -/
def hasProduct (ps : List Product) (name : String) : Bool :=
  ps.any (fun p => p.product_name = name)

/-- `orders[orders["معرف الطلب"] == oid].iloc[0]`: the first order row
with the given id. -/
def findOrder (os : List Order) (oid : String) : Option Order :=
  (os.filter (fun o => o.order_id = oid)).head?

/-- Python dict insertion: overwrite the value in place if the key
exists, else append. -/
def insertDict (acc : List LineItem) (pq : LineItem) : List LineItem :=
  if acc.any (fun r => r.1 = pq.1) then
    acc.map (fun r => if r.1 = pq.1 then (r.1, pq.2) else r)
  else acc ++ [pq]

/-- The dict comprehension
`{p.split(":")[0].strip(): int(p.split(":")[1]) for p in ...}` applied
to an order's line items: later duplicates of a key overwrite earlier
ones, keeping first-insertion order. -/
def dictOf (items : List LineItem) : List LineItem :=
  items.foldl insertDict []

/-- `refund_items.get(prod, 0)`. -/
def getRefund (rmap : List (String × ℕ)) (prod : String) : ℕ :=
  match (rmap.filter (fun pq => pq.1 = prod)).head? with
  | some pq => pq.2
  | none => 0

/-- Result of the create/edit line-item loop: the products table after
the loop, the accumulated `total`, the accumulated `order_details`,
and the error if the loop broke or raised. -/
structure LoopResult where
  products : List Product
  total : ℚ
  details : List LineItem
  err : Option PosError
deriving Repr, DecidableEq

/-- The `for prod in selected_products:` loop shared by the new-order
and edit-order handlers: look up price, check `qty > current_stock`
(break on failure), accumulate total and details, decrement stock. -/
def createLoop : List Product → List LineItem → ℚ → List LineItem → LoopResult
  | ps, [], total, details => ⟨ps, total, details, none⟩
  | ps, (prod, qty) :: rest, total, details =>
    match findProduct ps prod with
    | none => ⟨ps, total, details, some (.productLookupFailed prod)⟩
    | some p =>
      if (qty : ℤ) > p.stock then
        ⟨ps, total, details, some (.insufficientStock prod qty p.stock)⟩
      else
        createLoop (adjustStock ps prod (-(qty : ℤ))) rest
          (total + p.selling_price * qty) (details ++ [(prod, qty)])

/-- The `st.form("new_order")` submit handler: empty selection is
rejected; otherwise the loop runs and, only if it completed without
break (`for`/`else`), a new order row is appended.  On a break the
stock decrements already applied remain in the products table. -/
def createOrder (st : PosState) (items : List LineItem) (oid date : String) :
    PosState × Option PosError :=
  if items.isEmpty then (st, some .emptyOrder)
  else
    match createLoop st.products items 0 [] with
    | ⟨ps, total, details, none⟩ =>
      ({ st with
          products := ps
          orders := st.orders ++ [⟨oid, date, details, total⟩] }, none)
    | ⟨ps, _, _, some e⟩ => ({ st with products := ps }, some e)

/-- The reversal loop of the delete-order and edit-order handlers:
`if prod in products["اسم المنتج"].values:` increment stock, else
silently skip the line item. -/
def reverseItems : List Product → List LineItem → List Product
  | ps, [] => ps
  | ps, (prod, qty) :: rest =>
    if hasProduct ps prod then reverseItems (adjustStock ps prod (qty : ℤ)) rest
    else reverseItems ps rest

/-- The `st.form("delete_order")` submit handler: parse the order's
items into a dict, return each present product's quantity to stock,
then drop every order row with this id. -/
def deleteOrder (st : PosState) (oid : String) : PosState × Option PosError :=
  match findOrder st.orders oid with
  | none => (st, some (.orderNotFound oid))
  | some o =>
    ({ st with
        products := reverseItems st.products (dictOf o.items)
        orders := st.orders.filter (fun r => r.order_id ≠ oid) }, none)

/-- The `st.form("edit_order")` submit handler: reverse the existing
order's items (skipping missing products), then run the same loop as
order creation on the new items; only if it completes is the order row
replaced (keeping its id and its original date).  On a break the
reversal and the partial decrements remain in the products table and
the order row is left unchanged. -/
def editOrder (st : PosState) (oid : String) (newItems : List LineItem) :
    PosState × Option PosError :=
  match findOrder st.orders oid with
  | none => (st, some (.orderNotFound oid))
  | some o =>
    let ps1 := reverseItems st.products (dictOf o.items)
    match createLoop ps1 newItems 0 [] with
    | ⟨ps2, total, details, none⟩ =>
      ({ st with
          products := ps2
          orders := st.orders.map (fun r =>
            if r.order_id = oid then ⟨oid, o.date, details, total⟩ else r) }, none)
    | ⟨ps2, _, _, some e⟩ => ({ st with products := ps2 }, some e)

/-- The refund loop: for each (prod, old_qty) of the order's item
dict, read `refund_items.get(prod, 0)`; when positive, look up the
price (raising if the product is missing), accumulate the refunded
amount and return the quantity to stock; keep the line item with its
remaining quantity only when that remainder is positive. -/
def refundLoop : List Product → List LineItem → List (String × ℕ) → ℚ → List LineItem → LoopResult
  | ps, [], _, refunded, details => ⟨ps, refunded, details, none⟩
  | ps, (prod, oldQty) :: rest, rmap, refunded, details =>
    let rq := getRefund rmap prod
    if rq > 0 then
      match findProduct ps prod with
      | none => ⟨ps, refunded, details, some (.productLookupFailed prod)⟩
      | some p =>
        refundLoop (adjustStock ps prod (rq : ℤ)) rest rmap
          (refunded + p.selling_price * rq)
          (if oldQty - rq > 0 then details ++ [(prod, oldQty - rq)] else details)
    else
      refundLoop ps rest rmap refunded
        (if oldQty - rq > 0 then details ++ [(prod, oldQty - rq)] else details)

/-- The `st.form("refund_order")` submit handler.  `rmap` holds the
per-product refund quantities entered in the form; the handler only
sees the positive entries (`refund_items`), rejects an empty dict,
runs the refund loop, and then either rewrites the order's items and
subtracts the refunded amount from its total, or (when nothing
remains) drops the order row.  The refunded amount is displayed to the
caller. -/
def refundOrder (st : PosState) (oid : String) (rmap : List (String × ℕ)) :
    PosState × ℚ × Option PosError :=
  match findOrder st.orders oid with
  | none => (st, 0, some (.orderNotFound oid))
  | some o =>
    let pos := rmap.filter (fun pq => pq.2 > 0)
    if pos.isEmpty then (st, 0, some .emptyRefund)
    else
      match refundLoop st.products (dictOf o.items) pos 0 [] with
      | ⟨ps, refunded, details, none⟩ =>
        if details.isEmpty then
          ({ st with
              products := ps
              orders := st.orders.filter (fun r => r.order_id ≠ oid) }, refunded, none)
        else
          ({ st with
              products := ps
              orders := st.orders.map (fun r =>
                if r.order_id = oid then
                  { r with items := details, total := r.total - refunded } else r) },
            refunded, none)
      | ⟨ps, refunded, _, some e⟩ => ({ st with products := ps }, refunded, some e)

/-- `orders["الإجمالي"].sum()` (0 when there are no orders). -/
def total_income (st : PosState) : ℚ := (st.orders.map (fun o => o.total)).sum

/-- `expenses["المبلغ"].sum()` (0 when there are no expenses). -/
def total_expenses (st : PosState) : ℚ := st.expenses.sum

/-- `products["المخزون"].max()` (only used on a non-empty catalog). -/
def maxStockVal (ps : List Product) : ℤ := ((ps.map (fun p => p.stock)).max?).getD 0

/-- The dashboard's `sold_qty` column:
`products["المخزون"].max() - products["المخزون"]`. -/
def sold_qty (ps : List Product) (p : Product) : ℤ := maxStockVal ps - p.stock

/-- `(products["السعر الأصلي"] * products["sold_qty"]).sum()`, and 0
for an empty catalog (the dashboard initializes it to 0 and skips the
computation). -/
def sold_product_cost (st : PosState) : ℚ :=
  if st.products.isEmpty then 0
  else (st.products.map (fun p => p.original_price * ((sold_qty st.products p : ℤ) : ℚ))).sum

/-- `net_profit = total_income - (sold_product_cost + total_expenses)`. -/
def net_profit (st : PosState) : ℚ :=
  total_income st - (sold_product_cost st + total_expenses st)

/-! ## Spec-side helper functions -/

/-- Total quantity the line items `items` request for product name
`name`. -/
def itemsQty (items : List LineItem) (name : String) : ℕ :=
  ((items.filter (fun it => it.1 = name)).map (fun it => it.2)).sum

/-- Decrement a product's stock by the quantity `items` request for
its name (the cumulative effect of the create loop on one row). -/
def decStock (items : List LineItem) (p : Product) : Product :=
  { p with stock := p.stock - (itemsQty items p.product_name : ℤ) }

/-- Increment a product's stock by the quantity `items` request for
its name (the cumulative effect of the reversal loop on one row). -/
def incStock (items : List LineItem) (p : Product) : Product :=
  { p with stock := p.stock + (itemsQty items p.product_name : ℤ) }

/-- Selling price of the first catalog row named `n` (0 if absent). -/
def priceD (ps : List Product) (n : String) : ℚ :=
  ((findProduct ps n).map (fun p => p.selling_price)).getD 0

/-- Stock of the first catalog row named `n` (0 if absent). -/
def stockOf (ps : List Product) (n : String) : ℤ :=
  ((findProduct ps n).map (fun p => p.stock)).getD 0

/-- `Σ price*qty` over a list of line items, at the prices of `ps`. -/
def itemsTotal (ps : List Product) (items : List LineItem) : ℚ :=
  (items.map (fun it => priceD ps it.1 * it.2)).sum

/-- The catalog names, in row order. -/
def namesOf (ps : List Product) : List String := ps.map (fun p => p.product_name)

/-- Total open-order quantity that references product name `name`. -/
def openQty (st : PosState) (name : String) : ℕ :=
  (st.orders.map (fun o => itemsQty o.items name)).sum

/-! ## Basic lemmas about the primitives -/

theorem itemsQty_nil (name : String) : itemsQty [] name = 0 := rfl

theorem itemsQty_cons (n : String) (q : ℕ) (rest : List LineItem) (name : String) :
    itemsQty ((n, q) :: rest) name = (if n = name then q else 0) + itemsQty rest name := by
  simp only [itemsQty, List.filter_cons]
  by_cases h : n = name <;> simp [h]

theorem itemsQty_append (a b : List LineItem) (name : String) :
    itemsQty (a ++ b) name = itemsQty a name + itemsQty b name := by
  simp [itemsQty, List.filter_append]

theorem decStock_nil (p : Product) : decStock [] p = p := by
  cases p; simp [decStock, itemsQty_nil]

theorem incStock_nil (p : Product) : incStock [] p = p := by
  cases p; simp [incStock, itemsQty_nil]

theorem length_adjustStock (ps : List Product) (n : String) (δ : ℤ) :
    (adjustStock ps n δ).length = ps.length := by
  simp [adjustStock]

theorem findProduct_nil (n : String) : findProduct [] n = none := rfl

theorem findProduct_cons (p : Product) (ps : List Product) (n : String) :
    findProduct (p :: ps) n =
      if p.product_name = n then some p else findProduct ps n := by
  simp only [findProduct, List.filter_cons]
  by_cases h : p.product_name = n <;> simp [h]

theorem findProduct_name (ps : List Product) (n : String) (p : Product)
    (h : findProduct ps n = some p) : p.product_name = n := by
  induction ps with
  | nil => simp [findProduct_nil] at h
  | cons q qs ih =>
    rw [findProduct_cons] at h
    by_cases hq : q.product_name = n
    · simp [hq] at h; rw [← h]; exact hq
    · simp [hq] at h; exact ih h

theorem findProduct_map (f : Product → Product)
    (hf : ∀ p, (f p).product_name = p.product_name) (ps : List Product) (m : String) :
    findProduct (ps.map f) m = (findProduct ps m).map f := by
  induction ps with
  | nil => rfl
  | cons q qs ih =>
    rw [List.map_cons, findProduct_cons, findProduct_cons, hf]
    by_cases hm : q.product_name = m <;> simp [hm, ih]

theorem findProduct_adjustStock (ps : List Product) (n m : String) (δ : ℤ) :
    findProduct (adjustStock ps n δ) m =
      (findProduct ps m).map
        (fun p => if p.product_name = n then { p with stock := p.stock + δ } else p) := by
  apply findProduct_map
  intro p
  by_cases h : p.product_name = n <;> simp [h]

theorem priceD_adjustStock (ps : List Product) (n m : String) (δ : ℤ) :
    priceD (adjustStock ps n δ) m = priceD ps m := by
  rw [priceD, priceD, findProduct_adjustStock]
  cases h : findProduct ps m with
  | none => rfl
  | some p => by_cases hp : p.product_name = n <;> simp [hp]

theorem stockOf_eq (ps : List Product) (n : String) (p : Product)
    (h : findProduct ps n = some p) : stockOf ps n = p.stock := by
  rw [stockOf, h]; rfl

theorem priceD_eq (ps : List Product) (n : String) (p : Product)
    (h : findProduct ps n = some p) : priceD ps n = p.selling_price := by
  rw [priceD, h]; rfl

theorem stockOf_adjustStock (ps : List Product) (n m : String) (δ : ℤ) (h : m ≠ n) :
    stockOf (adjustStock ps n δ) m = stockOf ps m := by
  rw [stockOf, stockOf, findProduct_adjustStock]
  cases hf : findProduct ps m with
  | none => rfl
  | some p =>
    have hname := findProduct_name ps m p hf
    simp [hname, h]

theorem isSome_findProduct_adjustStock (ps : List Product) (n m : String) (δ : ℤ) :
    (findProduct (adjustStock ps n δ) m).isSome = (findProduct ps m).isSome := by
  rw [findProduct_adjustStock]
  cases findProduct ps m <;> rfl

theorem hasProduct_nil (n : String) : hasProduct [] n = false := rfl

theorem hasProduct_cons (p : Product) (ps : List Product) (n : String) :
    hasProduct (p :: ps) n = (decide (p.product_name = n) || hasProduct ps n) := by
  simp [hasProduct]

theorem hasProduct_eq_isSome (ps : List Product) (n : String) :
    hasProduct ps n = (findProduct ps n).isSome := by
  induction ps with
  | nil => rfl
  | cons q qs ih =>
    rw [hasProduct_cons, findProduct_cons]
    by_cases h : q.product_name = n <;> simp [h, ih]

theorem itemsQty_eq_zero (items : List LineItem) (name : String)
    (h : name ∉ items.map Prod.fst) : itemsQty items name = 0 := by
  induction items with
  | nil => rfl
  | cons it rest ih =>
    obtain ⟨n, q⟩ := it
    rw [itemsQty_cons]
    simp only [List.map_cons, List.mem_cons] at h
    push_neg at h
    simp [h.1.symm, ih h.2]

theorem map_decStock_adjustStock (ps : List Product) (n : String) (q : ℕ)
    (rest : List LineItem) :
    (adjustStock ps n (-(q : ℤ))).map (decStock rest) = ps.map (decStock ((n, q) :: rest)) := by
  rw [adjustStock, List.map_map]
  apply List.map_congr_left
  intro p _
  simp only [Function.comp]
  by_cases h : p.product_name = n
  · have h2 : n = p.product_name := h.symm
    simp only [if_pos h, decStock, itemsQty_cons, if_pos h2, Product.mk.injEq, true_and]
    push_cast
    ring
  · have h2 : ¬ (n = p.product_name) := fun hs => h hs.symm
    simp only [if_neg h, decStock, itemsQty_cons, if_neg h2]
    simp

theorem map_incStock_adjustStock (ps : List Product) (n : String) (q : ℕ)
    (rest : List LineItem) :
    (adjustStock ps n (q : ℤ)).map (incStock rest) = ps.map (incStock ((n, q) :: rest)) := by
  rw [adjustStock, List.map_map]
  apply List.map_congr_left
  intro p _
  simp only [Function.comp]
  by_cases h : p.product_name = n
  · have h2 : n = p.product_name := h.symm
    simp only [if_pos h, incStock, itemsQty_cons, if_pos h2, Product.mk.injEq, true_and]
    push_cast
    ring
  · have h2 : ¬ (n = p.product_name) := fun hs => h hs.symm
    simp only [if_neg h, incStock, itemsQty_cons, if_neg h2]
    simp

theorem map_decStock_nil (ps : List Product) : ps.map (decStock []) = ps := by
  have h : ∀ p ∈ ps, decStock [] p = id p := fun p _ => decStock_nil p
  rw [List.map_congr_left h, List.map_id]

theorem map_incStock_nil (ps : List Product) : ps.map (incStock []) = ps := by
  have h : ∀ p ∈ ps, incStock [] p = id p := fun p _ => incStock_nil p
  rw [List.map_congr_left h, List.map_id]

theorem itemsTotal_nil (ps : List Product) : itemsTotal ps [] = 0 := rfl

theorem itemsTotal_cons (ps : List Product) (n : String) (q : ℕ) (rest : List LineItem) :
    itemsTotal ps ((n, q) :: rest) = priceD ps n * q + itemsTotal ps rest := by
  simp [itemsTotal]

theorem itemsTotal_adjustStock (ps : List Product) (n : String) (δ : ℤ)
    (items : List LineItem) :
    itemsTotal (adjustStock ps n δ) items = itemsTotal ps items := by
  unfold itemsTotal
  congr 1
  apply List.map_congr_left
  intro it _
  rw [priceD_adjustStock]

/-! ## Characterization of the create/edit loop -/

theorem createLoop_nil (ps : List Product) (t : ℚ) (d : List LineItem) :
    createLoop ps [] t d = ⟨ps, t, d, none⟩ := rfl

theorem createLoop_cons_none (ps : List Product) (n : String) (q : ℕ) (rest : List LineItem)
    (t : ℚ) (d : List LineItem) (hf : findProduct ps n = none) :
    createLoop ps ((n, q) :: rest) t d = ⟨ps, t, d, some (.productLookupFailed n)⟩ := by
  rw [createLoop, hf]

theorem createLoop_cons_insufficient (ps : List Product) (n : String) (q : ℕ)
    (rest : List LineItem) (t : ℚ) (d : List LineItem) (p : Product)
    (hf : findProduct ps n = some p) (hs : (q : ℤ) > p.stock) :
    createLoop ps ((n, q) :: rest) t d = ⟨ps, t, d, some (.insufficientStock n q p.stock)⟩ := by
  rw [createLoop, hf]
  simp only [if_pos hs]

theorem createLoop_cons_ok (ps : List Product) (n : String) (q : ℕ)
    (rest : List LineItem) (t : ℚ) (d : List LineItem) (p : Product)
    (hf : findProduct ps n = some p) (hs : ¬ ((q : ℤ) > p.stock)) :
    createLoop ps ((n, q) :: rest) t d =
      createLoop (adjustStock ps n (-(q : ℤ))) rest (t + p.selling_price * q) (d ++ [(n, q)]) := by
  rw [createLoop, hf]
  simp only [if_neg hs]

theorem createLoop_of_err_none (items : List LineItem) : ∀ (ps : List Product) (t : ℚ)
    (d : List LineItem), (createLoop ps items t d).err = none →
    createLoop ps items t d = ⟨ps.map (decStock items), t + itemsTotal ps items, d ++ items, none⟩ := by
  induction items with
  | nil => intro ps t d _; simp [createLoop_nil, map_decStock_nil, itemsTotal_nil]
  | cons it rest ih =>
    intro ps t d herr
    obtain ⟨n, q⟩ := it
    cases hf : findProduct ps n with
    | none => rw [createLoop_cons_none ps n q rest t d hf] at herr; simp at herr
    | some p =>
      by_cases hs : (q : ℤ) > p.stock
      · rw [createLoop_cons_insufficient ps n q rest t d p hf hs] at herr; simp at herr
      · rw [createLoop_cons_ok ps n q rest t d p hf hs] at herr ⊢
        rw [ih _ _ _ herr]
        rw [map_decStock_adjustStock, itemsTotal_adjustStock, itemsTotal_cons,
          priceD_eq ps n p hf]
        rw [List.append_assoc]
        simp [add_assoc]

theorem createLoop_products_upto (items : List LineItem) : ∀ (ps : List Product) (t : ℚ)
    (d : List LineItem), ∃ pre, pre <+: items ∧
      (createLoop ps items t d).products = ps.map (decStock pre) := by
  induction items with
  | nil =>
    intro ps t d
    exact ⟨[], List.prefix_refl [], by simp [createLoop_nil, map_decStock_nil]⟩
  | cons it rest ih =>
    intro ps t d
    obtain ⟨n, q⟩ := it
    cases hf : findProduct ps n with
    | none =>
      rw [createLoop_cons_none ps n q rest t d hf]
      exact ⟨[], List.nil_prefix, by simp [map_decStock_nil]⟩
    | some p =>
      by_cases hs : (q : ℤ) > p.stock
      · rw [createLoop_cons_insufficient ps n q rest t d p hf hs]
        exact ⟨[], List.nil_prefix, by simp [map_decStock_nil]⟩
      · rw [createLoop_cons_ok ps n q rest t d p hf hs]
        obtain ⟨pre, hpre, hps⟩ := ih (adjustStock ps n (-(q : ℤ)))
          (t + p.selling_price * q) (d ++ [(n, q)])
        refine ⟨(n, q) :: pre, List.cons_prefix_cons.mpr ⟨rfl, hpre⟩, ?_⟩
        rw [hps, map_decStock_adjustStock]

theorem createLoop_lookups (items : List LineItem) : ∀ (ps : List Product) (t : ℚ)
    (d : List LineItem), (createLoop ps items t d).err = none →
    ∀ it ∈ items, (findProduct ps it.1).isSome := by
  induction items with
  | nil => intro ps t d _ it hit; simp at hit
  | cons jt rest ih =>
    intro ps t d herr it hit
    obtain ⟨n, q⟩ := jt
    cases hf : findProduct ps n with
    | none => rw [createLoop_cons_none ps n q rest t d hf] at herr; simp at herr
    | some p =>
      by_cases hs : (q : ℤ) > p.stock
      · rw [createLoop_cons_insufficient ps n q rest t d p hf hs] at herr; simp at herr
      · rw [createLoop_cons_ok ps n q rest t d p hf hs] at herr
        rcases List.mem_cons.mp hit with heq | hmem
        · rw [heq, hf]; rfl
        · have := ih _ _ _ herr it hmem
          rwa [isSome_findProduct_adjustStock] at this

theorem createLoop_err_of_insufficient (items : List LineItem) : ∀ (ps : List Product)
    (t : ℚ) (d : List LineItem), (items.map Prod.fst).Nodup →
    (∀ it ∈ items, (findProduct ps it.1).isSome) →
    (∃ it ∈ items, stockOf ps it.1 < (it.2 : ℤ)) →
    (createLoop ps items t d).err.isSome := by
  induction items with
  | nil => intro ps t d _ _ hex; simp at hex
  | cons jt rest ih =>
    intro ps t d hnd hlook hex
    obtain ⟨m, k⟩ := jt
    obtain ⟨p, hp⟩ := Option.isSome_iff_exists.mp (hlook (m, k) (List.mem_cons_self _ _))
    by_cases hs : (k : ℤ) > p.stock
    · rw [createLoop_cons_insufficient ps m k rest t d p hp hs]; rfl
    · rw [createLoop_cons_ok ps m k rest t d p hp hs]
      obtain ⟨it, hitmem, hitlt⟩ := hex
      rcases List.mem_cons.mp hitmem with heq | hmem
      · exfalso
        rw [heq] at hitlt
        rw [stockOf_eq ps m p hp] at hitlt
        simp only [not_lt] at hs
        omega
      · have hne : it.1 ≠ m := by
          intro heq1
          have : m ∈ rest.map Prod.fst := heq1 ▸ List.mem_map_of_mem Prod.fst hmem
          simp only [List.map_cons, List.nodup_cons] at hnd
          exact hnd.1 this
        apply ih
        · simp only [List.map_cons, List.nodup_cons] at hnd
          exact hnd.2
        · intro jt hjt
          rw [isSome_findProduct_adjustStock]
          exact hlook jt (List.mem_cons_of_mem _ hjt)
        · refine ⟨it, hmem, ?_⟩
          rwa [stockOf_adjustStock ps m it.1 _ hne]

/-! ## Characterization of the reversal loop -/

theorem reverseItems_eq (items : List LineItem) : ∀ ps : List Product,
    reverseItems ps items = ps.map (incStock items) := by
  induction items with
  | nil => intro ps; rw [reverseItems, map_incStock_nil]
  | cons it rest ih =>
    intro ps
    obtain ⟨n, q⟩ := it
    rw [reverseItems]
    by_cases h : hasProduct ps n
    · rw [if_pos h, ih, map_incStock_adjustStock]
    · rw [if_neg h, ih]
      apply List.map_congr_left
      intro p hp
      have hne : p.product_name ≠ n := by
        intro heq
        apply h
        simp only [hasProduct, List.any_eq_true]
        exact ⟨p, hp, by simp [heq]⟩
      have h2 : ¬ (n = p.product_name) := fun hs => hne hs.symm
      simp only [incStock, itemsQty_cons, if_neg h2]
      simp

/-! ## Characterization of the refund loop -/

/-- Per line item, the quantity the refund map returns to stock. -/
def refundedItems (rmap : List (String × ℕ)) (items : List LineItem) : List LineItem :=
  items.map (fun it => (it.1, getRefund rmap it.1))

/-- The line items that survive a refund, with their remaining
quantities. -/
def remainingItems (rmap : List (String × ℕ)) (items : List LineItem) : List LineItem :=
  items.filterMap (fun it =>
    if it.2 - getRefund rmap it.1 > 0 then some (it.1, it.2 - getRefund rmap it.1) else none)

/-- `Σ price * refund_qty` over the order's line items. -/
def refundTotal (ps : List Product) (rmap : List (String × ℕ)) (items : List LineItem) : ℚ :=
  (items.map (fun it => priceD ps it.1 * (getRefund rmap it.1 : ℕ))).sum

theorem refundTotal_nil (ps : List Product) (rmap : List (String × ℕ)) :
    refundTotal ps rmap [] = 0 := rfl

theorem refundTotal_cons (ps : List Product) (rmap : List (String × ℕ)) (n : String)
    (q : ℕ) (rest : List LineItem) :
    refundTotal ps rmap ((n, q) :: rest) =
      priceD ps n * (getRefund rmap n : ℕ) + refundTotal ps rmap rest := by
  simp [refundTotal]

theorem refundTotal_adjustStock (ps : List Product) (n : String) (δ : ℤ)
    (rmap : List (String × ℕ)) (items : List LineItem) :
    refundTotal (adjustStock ps n δ) rmap items = refundTotal ps rmap items := by
  unfold refundTotal
  congr 1
  apply List.map_congr_left
  intro it _
  rw [priceD_adjustStock]

theorem incStock_cons_zero (n : String) (rest : List LineItem) (p : Product) :
    incStock ((n, 0) :: rest) p = incStock rest p := by
  simp only [incStock, itemsQty_cons]
  split <;> simp

theorem refundLoop_nil (ps : List Product) (rmap : List (String × ℕ)) (acc : ℚ)
    (d : List LineItem) : refundLoop ps [] rmap acc d = ⟨ps, acc, d, none⟩ := rfl

theorem refundLoop_cons_zero (ps : List Product) (n : String) (q : ℕ) (rest : List LineItem)
    (rmap : List (String × ℕ)) (acc : ℚ) (d : List LineItem)
    (hrq : getRefund rmap n = 0) :
    refundLoop ps ((n, q) :: rest) rmap acc d =
      refundLoop ps rest rmap acc (if q > 0 then d ++ [(n, q)] else d) := by
  rw [refundLoop]
  simp only [hrq]
  simp

theorem refundLoop_cons_pos_none (ps : List Product) (n : String) (q : ℕ)
    (rest : List LineItem) (rmap : List (String × ℕ)) (acc : ℚ) (d : List LineItem)
    (hrq : 0 < getRefund rmap n) (hf : findProduct ps n = none) :
    refundLoop ps ((n, q) :: rest) rmap acc d =
      ⟨ps, acc, d, some (.productLookupFailed n)⟩ := by
  rw [refundLoop]
  simp only [if_pos hrq, hf]

theorem refundLoop_cons_pos (ps : List Product) (n : String) (q : ℕ)
    (rest : List LineItem) (rmap : List (String × ℕ)) (acc : ℚ) (d : List LineItem)
    (p : Product) (hrq : 0 < getRefund rmap n) (hf : findProduct ps n = some p) :
    refundLoop ps ((n, q) :: rest) rmap acc d =
      refundLoop (adjustStock ps n (getRefund rmap n : ℤ)) rest rmap
        (acc + p.selling_price * (getRefund rmap n : ℕ))
        (if q - getRefund rmap n > 0 then d ++ [(n, q - getRefund rmap n)] else d) := by
  rw [refundLoop]
  simp only [if_pos hrq, hf]

theorem refundLoop_of_err_none (items : List LineItem) : ∀ (ps : List Product)
    (rmap : List (String × ℕ)) (acc : ℚ) (d : List LineItem),
    (refundLoop ps items rmap acc d).err = none →
    refundLoop ps items rmap acc d =
      ⟨ps.map (incStock (refundedItems rmap items)),
        acc + refundTotal ps rmap items,
        d ++ remainingItems rmap items, none⟩ := by
  induction items with
  | nil =>
    intro ps rmap acc d _
    simp [refundLoop_nil, refundedItems, remainingItems, refundTotal_nil, map_incStock_nil]
  | cons it rest ih =>
    intro ps rmap acc d herr
    obtain ⟨n, q⟩ := it
    by_cases hrq : 0 < getRefund rmap n
    · cases hf : findProduct ps n with
      | none =>
        rw [refundLoop_cons_pos_none ps n q rest rmap acc d hrq hf] at herr
        simp at herr
      | some p =>
        rw [refundLoop_cons_pos ps n q rest rmap acc d p hrq hf] at herr ⊢
        rw [ih _ _ _ _ herr]
        have hprod : (refundedItems rmap ((n, q) :: rest)) =
            (n, getRefund rmap n) :: refundedItems rmap rest := rfl
        rw [hprod, ← map_incStock_adjustStock]
        rw [refundTotal_adjustStock, refundTotal_cons, priceD_eq ps n p hf]
        have hrem : remainingItems rmap ((n, q) :: rest) =
            (if q - getRefund rmap n > 0
              then (n, q - getRefund rmap n) :: remainingItems rmap rest
              else remainingItems rmap rest) := by
          simp only [remainingItems, List.filterMap_cons]
          split <;> simp_all
        rw [hrem]
        by_cases hq : q - getRefund rmap n > 0
        · simp only [if_pos hq]
          simp [add_assoc]
        · simp only [if_neg hq]
          simp [add_assoc]
    · have hrq0 : getRefund rmap n = 0 := by omega
      rw [refundLoop_cons_zero ps n q rest rmap acc d hrq0] at herr ⊢
      rw [ih _ _ _ _ herr]
      have hprod : (refundedItems rmap ((n, q) :: rest)) =
          (n, 0) :: refundedItems rmap rest := by
        simp [refundedItems, hrq0]
      rw [hprod]
      have hmap : ps.map (incStock ((n, 0) :: refundedItems rmap rest)) =
          ps.map (incStock (refundedItems rmap rest)) := by
        apply List.map_congr_left
        intro p _
        rw [incStock_cons_zero]
      rw [hmap]
      rw [refundTotal_cons, hrq0]
      have hrem : remainingItems rmap ((n, q) :: rest) =
          (if q > 0 then (n, q) :: remainingItems rmap rest
            else remainingItems rmap rest) := by
        simp only [remainingItems, List.filterMap_cons, hrq0]
        split <;> simp_all
      rw [hrem]
      by_cases hq : q > 0
      · simp only [if_pos hq]
        simp
      · simp only [if_neg hq]
        simp

theorem refundLoop_err_none (items : List LineItem) : ∀ (ps : List Product)
    (rmap : List (String × ℕ)) (acc : ℚ) (d : List LineItem),
    (∀ it ∈ items, 0 < getRefund rmap it.1 → (findProduct ps it.1).isSome) →
    (refundLoop ps items rmap acc d).err = none := by
  induction items with
  | nil => intro ps rmap acc d _; rfl
  | cons it rest ih =>
    intro ps rmap acc d hlook
    obtain ⟨n, q⟩ := it
    by_cases hrq : 0 < getRefund rmap n
    · obtain ⟨p, hp⟩ := Option.isSome_iff_exists.mp (hlook (n, q) (List.mem_cons_self _ _) hrq)
      rw [refundLoop_cons_pos ps n q rest rmap acc d p hrq hp]
      apply ih
      intro jt hjt hpos
      rw [isSome_findProduct_adjustStock]
      exact hlook jt (List.mem_cons_of_mem _ hjt) hpos
    · have hrq0 : getRefund rmap n = 0 := by omega
      rw [refundLoop_cons_zero ps n q rest rmap acc d hrq0]
      apply ih
      intro jt hjt hpos
      exact hlook jt (List.mem_cons_of_mem _ hjt) hpos

theorem itemsQty_remaining_add_refunded (rmap : List (String × ℕ)) (items : List LineItem)
    (name : String) (h : ∀ it ∈ items, getRefund rmap it.1 ≤ it.2) :
    itemsQty (remainingItems rmap items) name + itemsQty (refundedItems rmap items) name
      = itemsQty items name := by
  induction items with
  | nil => rfl
  | cons it rest ih =>
    obtain ⟨n, q⟩ := it
    have hle : getRefund rmap n ≤ q := h (n, q) (List.mem_cons_self _ _)
    have hrest : ∀ jt ∈ rest, getRefund rmap jt.1 ≤ jt.2 :=
      fun jt hjt => h jt (List.mem_cons_of_mem _ hjt)
    have hprod : (refundedItems rmap ((n, q) :: rest)) =
        (n, getRefund rmap n) :: refundedItems rmap rest := rfl
    have hrem : remainingItems rmap ((n, q) :: rest) =
        (if q - getRefund rmap n > 0
          then (n, q - getRefund rmap n) :: remainingItems rmap rest
          else remainingItems rmap rest) := by
      simp only [remainingItems, List.filterMap_cons]
      split <;> simp_all
    rw [hprod, hrem]
    by_cases hq : q - getRefund rmap n > 0
    · simp only [if_pos hq, itemsQty_cons]
      by_cases hn : n = name
      · simp only [if_pos hn]
        have := ih hrest
        omega
      · simp only [if_neg hn]
        have := ih hrest
        omega
    · simp only [if_neg hq, itemsQty_cons]
      by_cases hn : n = name
      · simp only [if_pos hn]
        have := ih hrest
        omega
      · simp only [if_neg hn]
        have := ih hrest
        omega

theorem remainingItems_keys_sublist (rmap : List (String × ℕ)) (items : List LineItem) :
    ((remainingItems rmap items).map Prod.fst).Sublist (items.map Prod.fst) := by
  induction items with
  | nil => simp [remainingItems]
  | cons it rest ih =>
    have hrem : remainingItems rmap (it :: rest) =
        (if it.2 - getRefund rmap it.1 > 0
          then (it.1, it.2 - getRefund rmap it.1) :: remainingItems rmap rest
          else remainingItems rmap rest) := by
      simp only [remainingItems, List.filterMap_cons]
      split <;> simp_all
    rw [hrem]
    by_cases hq : it.2 - getRefund rmap it.1 > 0
    · simp only [if_pos hq, List.map_cons]
      exact List.Sublist.cons₂ _ ih
    · simp only [if_neg hq, List.map_cons]
      exact List.Sublist.cons _ ih

/-! ## The item dict -/

theorem foldl_insertDict (items : List LineItem) : ∀ acc : List LineItem,
    ((acc.map Prod.fst) ++ (items.map Prod.fst)).Nodup →
    items.foldl insertDict acc = acc ++ items := by
  induction items with
  | nil => intro acc _; simp
  | cons it rest ih =>
    intro acc hnd
    have hnotin : it.1 ∉ acc.map Prod.fst := by
      intro hmem
      rw [List.nodup_append] at hnd
      exact hnd.2.2 hmem (by simp)
    have hany : acc.any (fun r => r.1 = it.1) = false := by
      rw [List.any_eq_false]
      intro r hr
      simp only [decide_eq_true_eq]
      intro heq
      exact hnotin (heq ▸ List.mem_map_of_mem Prod.fst hr)
    rw [List.foldl_cons, insertDict, hany]
    simp only [Bool.false_eq_true, if_false]
    rw [ih (acc ++ [it])]
    · simp
    · rw [List.map_append]
      simp only [List.map_cons] at hnd
      rw [List.append_assoc]
      simpa using hnd

theorem dictOf_eq_self (items : List LineItem) (h : (items.map Prod.fst).Nodup) :
    dictOf items = items := by
  rw [dictOf, foldl_insertDict items []]
  · simp
  · simpa using h

/-! ## Lemmas about the orders table -/

theorem findOrder_nil (oid : String) : findOrder [] oid = none := rfl

theorem findOrder_cons (o : Order) (os : List Order) (oid : String) :
    findOrder (o :: os) oid = if o.order_id = oid then some o else findOrder os oid := by
  simp only [findOrder, List.filter_cons]
  by_cases h : o.order_id = oid <;> simp [h]

theorem findOrder_id (os : List Order) (oid : String) (o : Order)
    (h : findOrder os oid = some o) : o.order_id = oid := by
  induction os with
  | nil => simp [findOrder_nil] at h
  | cons r rs ih =>
    rw [findOrder_cons] at h
    by_cases hr : r.order_id = oid
    · simp [hr] at h; rw [← h]; exact hr
    · simp [hr] at h; exact ih h

theorem findOrder_mem (os : List Order) (oid : String) (o : Order)
    (h : findOrder os oid = some o) : o ∈ os := by
  induction os with
  | nil => simp [findOrder_nil] at h
  | cons r rs ih =>
    rw [findOrder_cons] at h
    by_cases hr : r.order_id = oid
    · simp [hr] at h; rw [h]; exact List.mem_cons_self _ _
    · simp [hr] at h; exact List.mem_cons_of_mem _ (ih h)

theorem findOrder_append_right (os : List Order) (oid : String) (o : Order)
    (h : ∀ r ∈ os, r.order_id ≠ oid) (ho : o.order_id = oid) :
    findOrder (os ++ [o]) oid = some o := by
  induction os with
  | nil => simp [findOrder_cons, ho]
  | cons r rs ih =>
    rw [List.cons_append, findOrder_cons]
    rw [if_neg (h r (List.mem_cons_self _ _))]
    exact ih (fun r hr => h r (List.mem_cons_of_mem _ hr))

theorem filter_ne_of_not_mem (os : List Order) (oid : String)
    (h : ∀ r ∈ os, r.order_id ≠ oid) :
    os.filter (fun r => r.order_id ≠ oid) = os := by
  induction os with
  | nil => rfl
  | cons r rs ih =>
    rw [List.filter_cons]
    rw [if_pos (by simpa using h r (List.mem_cons_self _ _))]
    rw [ih (fun r hr => h r (List.mem_cons_of_mem _ hr))]

theorem map_replace_of_not_mem (os : List Order) (oid : String) (newO : Order)
    (h : ∀ r ∈ os, r.order_id ≠ oid) :
    os.map (fun r => if r.order_id = oid then newO else r) = os := by
  have : ∀ r ∈ os, (if r.order_id = oid then newO else r) = id r := by
    intro r hr
    rw [if_neg (h r hr)]
    rfl
  rw [List.map_congr_left this, List.map_id]

theorem not_mem_of_nodup_cons (r : Order) (rs : List Order)
    (hnd : ((r :: rs).map (fun o => o.order_id)).Nodup) :
    ∀ s ∈ rs, s.order_id ≠ r.order_id := by
  simp only [List.map_cons, List.nodup_cons] at hnd
  intro s hs heq
  exact hnd.1 (heq ▸ List.mem_map_of_mem (fun o => o.order_id) hs)

theorem sum_filter_ne_add (os : List Order) (oid : String) (o : Order) (f : Order → ℕ)
    (hnd : (os.map (fun r => r.order_id)).Nodup) (hfind : findOrder os oid = some o) :
    ((os.filter (fun r => r.order_id ≠ oid)).map f).sum + f o = (os.map f).sum := by
  induction os with
  | nil => simp [findOrder_nil] at hfind
  | cons r rs ih =>
    rw [findOrder_cons] at hfind
    by_cases hr : r.order_id = oid
    · simp only [if_pos hr] at hfind
      have ho : o = r := by injection hfind.symm
      rw [List.filter_cons]
      rw [if_neg (by simpa using hr)]
      have hnone : ∀ s ∈ rs, s.order_id ≠ oid := by
        intro s hs
        rw [← hr]
        exact not_mem_of_nodup_cons r rs hnd s hs
      rw [filter_ne_of_not_mem rs oid hnone, ho]
      simp [Nat.add_comm]
    · simp only [if_neg hr] at hfind
      rw [List.filter_cons]
      rw [if_pos (by simpa using hr)]
      simp only [List.map_cons, List.sum_cons]
      have hnd2 : (rs.map (fun r => r.order_id)).Nodup := by
        simp only [List.map_cons, List.nodup_cons] at hnd
        exact hnd.2
      have := ih hnd2 hfind
      omega

theorem sum_map_replace_add (os : List Order) (oid : String) (o newO : Order) (f : Order → ℕ)
    (hnd : (os.map (fun r => r.order_id)).Nodup) (hfind : findOrder os oid = some o) :
    (((os.map (fun r => if r.order_id = oid then newO else r)).map f)).sum + f o
      = (os.map f).sum + f newO := by
  induction os with
  | nil => simp [findOrder_nil] at hfind
  | cons r rs ih =>
    rw [findOrder_cons] at hfind
    by_cases hr : r.order_id = oid
    · simp only [if_pos hr] at hfind
      have ho : o = r := by injection hfind.symm
      simp only [List.map_cons, if_pos hr, List.sum_cons]
      have hnone : ∀ s ∈ rs, s.order_id ≠ oid := by
        intro s hs
        rw [← hr]
        exact not_mem_of_nodup_cons r rs hnd s hs
      rw [map_replace_of_not_mem rs oid newO hnone, ho]
      omega
    · simp only [if_neg hr] at hfind
      simp only [List.map_cons, if_neg hr, List.sum_cons]
      have hnd2 : (rs.map (fun r => r.order_id)).Nodup := by
        simp only [List.map_cons, List.nodup_cons] at hnd
        exact hnd.2
      have := ih hnd2 hfind
      omega

/-! ## Unfolding lemmas for the four handlers -/

theorem createOrder_empty (st : PosState) (oid date : String) :
    createOrder st [] oid date = (st, some .emptyOrder) := rfl

theorem createOrder_ok (st : PosState) (items : List LineItem) (oid date : String)
    (ps : List Product) (t : ℚ) (d : List LineItem) (hne : items ≠ [])
    (hloop : createLoop st.products items 0 [] = ⟨ps, t, d, none⟩) :
    createOrder st items oid date =
      ({ st with
          products := ps
          orders := st.orders ++ [⟨oid, date, d, t⟩] }, none) := by
  rw [createOrder, if_neg (by simpa using hne), hloop]

theorem createOrder_err (st : PosState) (items : List LineItem) (oid date : String)
    (ps : List Product) (t : ℚ) (d : List LineItem) (e : PosError) (hne : items ≠ [])
    (hloop : createLoop st.products items 0 [] = ⟨ps, t, d, some e⟩) :
    createOrder st items oid date = ({ st with products := ps }, some e) := by
  rw [createOrder, if_neg (by simpa using hne), hloop]

theorem deleteOrder_notFound (st : PosState) (oid : String)
    (hfind : findOrder st.orders oid = none) :
    deleteOrder st oid = (st, some (.orderNotFound oid)) := by
  rw [deleteOrder, hfind]

theorem deleteOrder_found (st : PosState) (oid : String) (o : Order)
    (hfind : findOrder st.orders oid = some o) :
    deleteOrder st oid =
      ({ st with
          products := reverseItems st.products (dictOf o.items)
          orders := st.orders.filter (fun r => r.order_id ≠ oid) }, none) := by
  rw [deleteOrder, hfind]

theorem editOrder_notFound (st : PosState) (oid : String) (newItems : List LineItem)
    (hfind : findOrder st.orders oid = none) :
    editOrder st oid newItems = (st, some (.orderNotFound oid)) := by
  rw [editOrder, hfind]

theorem editOrder_found_ok (st : PosState) (oid : String) (newItems : List LineItem)
    (o : Order) (ps2 : List Product) (t : ℚ) (d : List LineItem)
    (hfind : findOrder st.orders oid = some o)
    (hloop : createLoop (reverseItems st.products (dictOf o.items)) newItems 0 []
      = ⟨ps2, t, d, none⟩) :
    editOrder st oid newItems =
      ({ st with
          products := ps2
          orders := st.orders.map (fun r =>
            if r.order_id = oid then ⟨oid, o.date, d, t⟩ else r) }, none) := by
  rw [editOrder, hfind]
  simp only [hloop]

theorem editOrder_found_err (st : PosState) (oid : String) (newItems : List LineItem)
    (o : Order) (ps2 : List Product) (t : ℚ) (d : List LineItem) (e : PosError)
    (hfind : findOrder st.orders oid = some o)
    (hloop : createLoop (reverseItems st.products (dictOf o.items)) newItems 0 []
      = ⟨ps2, t, d, some e⟩) :
    editOrder st oid newItems = ({ st with products := ps2 }, some e) := by
  rw [editOrder, hfind]
  simp only [hloop]

theorem refundOrder_notFound (st : PosState) (oid : String) (rmap : List (String × ℕ))
    (hfind : findOrder st.orders oid = none) :
    refundOrder st oid rmap = (st, 0, some (.orderNotFound oid)) := by
  rw [refundOrder, hfind]

theorem refundOrder_empty (st : PosState) (oid : String) (rmap : List (String × ℕ))
    (o : Order) (hfind : findOrder st.orders oid = some o)
    (hpos : rmap.filter (fun pq => pq.2 > 0) = []) :
    refundOrder st oid rmap = (st, 0, some .emptyRefund) := by
  rw [refundOrder, hfind]
  simp only [hpos]
  rfl

theorem refundOrder_ok_deleted (st : PosState) (oid : String) (rmap : List (String × ℕ))
    (o : Order) (ps : List Product) (refunded : ℚ)
    (hfind : findOrder st.orders oid = some o)
    (hpos : rmap.filter (fun pq => pq.2 > 0) ≠ [])
    (hloop : refundLoop st.products (dictOf o.items) (rmap.filter (fun pq => pq.2 > 0)) 0 []
      = ⟨ps, refunded, [], none⟩) :
    refundOrder st oid rmap =
      ({ st with
          products := ps
          orders := st.orders.filter (fun r => r.order_id ≠ oid) }, refunded, none) := by
  have hie : (rmap.filter (fun pq => pq.2 > 0)).isEmpty = false := by
    rw [List.isEmpty_eq_false]; exact hpos
  rw [refundOrder, hfind]
  simp only [hloop, hie]
  rfl

theorem refundOrder_ok_kept (st : PosState) (oid : String) (rmap : List (String × ℕ))
    (o : Order) (ps : List Product) (refunded : ℚ) (d : List LineItem)
    (hfind : findOrder st.orders oid = some o)
    (hpos : rmap.filter (fun pq => pq.2 > 0) ≠ [])
    (hd : d ≠ [])
    (hloop : refundLoop st.products (dictOf o.items) (rmap.filter (fun pq => pq.2 > 0)) 0 []
      = ⟨ps, refunded, d, none⟩) :
    refundOrder st oid rmap =
      ({ st with
          products := ps
          orders := st.orders.map (fun r =>
            if r.order_id = oid then
              { r with items := d, total := r.total - refunded } else r) },
        refunded, none) := by
  have hie : (rmap.filter (fun pq => pq.2 > 0)).isEmpty = false := by
    rw [List.isEmpty_eq_false]; exact hpos
  have hde : d.isEmpty = false := by
    rw [List.isEmpty_eq_false]; exact hd
  rw [refundOrder, hfind]
  simp only [hloop, hie, hde]
  rfl

theorem refundOrder_err (st : PosState) (oid : String) (rmap : List (String × ℕ))
    (o : Order) (ps : List Product) (refunded : ℚ) (d : List LineItem) (e : PosError)
    (hfind : findOrder st.orders oid = some o)
    (hpos : rmap.filter (fun pq => pq.2 > 0) ≠ [])
    (hloop : refundLoop st.products (dictOf o.items) (rmap.filter (fun pq => pq.2 > 0)) 0 []
      = ⟨ps, refunded, d, some e⟩) :
    refundOrder st oid rmap = ({ st with products := ps }, refunded, some e) := by
  have hie : (rmap.filter (fun pq => pq.2 > 0)).isEmpty = false := by
    rw [List.isEmpty_eq_false]; exact hpos
  rw [refundOrder, hfind]
  simp only [hloop, hie]
  rfl

/-! ## Operation sequences -/

/-- One Inventory Transaction operation, as submitted through the
order/refund forms. -/
inductive PosOp where
  | create (items : List LineItem) (oid date : String)
  | edit (oid : String) (newItems : List LineItem)
  | delete (oid : String)
  | refund (oid : String) (rmap : List (String × ℕ))
deriving Repr, DecidableEq

/-- Dispatch one operation to its form handler (the refunded amount
is only displayed, so it is dropped here). -/
def applyOp (st : PosState) : PosOp → PosState × Option PosError
  | .create items oid date => createOrder st items oid date
  | .edit oid newItems => editOrder st oid newItems
  | .delete oid => deleteOrder st oid
  | .refund oid rmap => ((refundOrder st oid rmap).1, (refundOrder st oid rmap).2.2)

/-- Run a sequence of operations, failing as soon as one surfaces an
error: `some st'` is the final state of an all-successful run. -/
def runOps : PosState → List PosOp → Option PosState
  | st, [] => some st
  | st, op :: rest =>
    match applyOp st op with
    | (st1, none) => runOps st1 rest
    | (_, some _) => none

/-- Side conditions the UI guarantees for a submitted operation:
create and edit line items come from a `multiselect` (distinct
product names), a created order gets a fresh timestamp-derived id,
and each refund quantity is capped by `number_input(max_value)` at
the line item's own quantity. -/
def opOk (st : PosState) : PosOp → Bool
  | .create items oid _ =>
    decide ((items.map Prod.fst).Nodup) && st.orders.all (fun o => o.order_id ≠ oid)
  | .edit _ newItems => decide ((newItems.map Prod.fst).Nodup)
  | .delete _ => true
  | .refund oid rmap =>
    match findOrder st.orders oid with
    | none => true
    | some o => (dictOf o.items).all
        (fun it => getRefund (rmap.filter (fun pq => pq.2 > 0)) it.1 ≤ it.2)

/-- Every operation of the sequence satisfies its UI side conditions
at the state where it runs. -/
def validRun : PosState → List PosOp → Bool
  | _, [] => true
  | st, op :: rest =>
    opOk st op && (match applyOp st op with
      | (st1, none) => validRun st1 rest
      | (_, some _) => true)

/-- Structural well-formedness of the orders table, maintained by the
handlers: order ids are distinct and each order's line-item names are
distinct. -/
def ordersWF (st : PosState) : Prop :=
  (st.orders.map (fun o => o.order_id)).Nodup ∧
  ∀ o ∈ st.orders, (o.items.map Prod.fst).Nodup

theorem namesOf_map_decStock (ps : List Product) (L : List LineItem) :
    namesOf (ps.map (decStock L)) = namesOf ps := by
  simp only [namesOf, List.map_map]
  apply List.map_congr_left
  intro p _
  rfl

theorem namesOf_map_incStock (ps : List Product) (L : List LineItem) :
    namesOf (ps.map (incStock L)) = namesOf ps := by
  simp only [namesOf, List.map_map]
  apply List.map_congr_left
  intro p _
  rfl

theorem ids_map_if (os : List Order) (oid : String) (newO : Order)
    (hid : newO.order_id = oid) :
    ((os.map (fun r => if r.order_id = oid then newO else r)).map (fun o => o.order_id))
      = os.map (fun o => o.order_id) := by
  rw [List.map_map]
  apply List.map_congr_left
  intro r _
  simp only [Function.comp]
  by_cases h : r.order_id = oid
  · rw [if_pos h, hid, h]
  · rw [if_neg h]

theorem ids_map_update (os : List Order) (oid : String) (d : List LineItem) (x : ℚ) :
    ((os.map (fun r => if r.order_id = oid then
        { r with items := d, total := r.total - x } else r)).map (fun o => o.order_id))
      = os.map (fun o => o.order_id) := by
  rw [List.map_map]
  apply List.map_congr_left
  intro r _
  simp only [Function.comp]
  by_cases h : r.order_id = oid
  · rw [if_pos h]
  · rw [if_neg h]

theorem eq_of_mem_id (os : List Order) (oid : String) (o r : Order)
    (hnd : (os.map (fun s => s.order_id)).Nodup) (hfind : findOrder os oid = some o)
    (hr : r ∈ os) (hid : r.order_id = oid) : r = o := by
  induction os with
  | nil => simp at hr
  | cons s rs ih =>
    rw [findOrder_cons] at hfind
    rcases List.mem_cons.mp hr with heq | hmem
    · subst heq
      rw [if_pos hid] at hfind
      injection hfind with h
    · by_cases hs : s.order_id = oid
      · exfalso
        have := not_mem_of_nodup_cons s rs hnd r hmem
        rw [hid, hs] at this
        exact this rfl
      · rw [if_neg hs] at hfind
        have hnd2 : (rs.map (fun s => s.order_id)).Nodup := by
          simp only [List.map_cons, List.nodup_cons] at hnd
          exact hnd.2
        exact ih hnd2 hfind hmem

theorem createOrder_snd (st : PosState) (items : List LineItem) (oid date : String)
    (hne : items ≠ []) :
    (createOrder st items oid date).2 = (createLoop st.products items 0 []).err := by
  rw [createOrder, if_neg (by simpa using hne)]
  rcases h : createLoop st.products items 0 [] with ⟨ps, t, d, err⟩
  cases err <;> rfl

theorem editOrder_snd (st : PosState) (oid : String) (newItems : List LineItem) (o : Order)
    (hfind : findOrder st.orders oid = some o) :
    (editOrder st oid newItems).2
      = (createLoop (reverseItems st.products (dictOf o.items)) newItems 0 []).err := by
  rw [editOrder, hfind]
  rcases h : createLoop (reverseItems st.products (dictOf o.items)) newItems 0 []
    with ⟨ps, t, d, err⟩
  cases err <;> simp [h]

theorem refundOrder_snd (st : PosState) (oid : String) (rmap : List (String × ℕ)) (o : Order)
    (hfind : findOrder st.orders oid = some o)
    (hpos : rmap.filter (fun pq => pq.2 > 0) ≠ []) :
    (refundOrder st oid rmap).2.2
      = (refundLoop st.products (dictOf o.items) (rmap.filter (fun pq => pq.2 > 0)) 0 []).err := by
  have hie : (rmap.filter (fun pq => pq.2 > 0)).isEmpty = false := by
    rw [List.isEmpty_eq_false]; exact hpos
  rw [refundOrder, hfind]
  rcases h : refundLoop st.products (dictOf o.items)
    (rmap.filter (fun pq => pq.2 > 0)) 0 [] with ⟨ps, refunded, d, err⟩
  cases err with
  | none =>
    simp only [hie, h]
    by_cases hd : d.isEmpty <;> simp [hd]
  | some e => simp [hie, h]

theorem applyOp_conservation (st st' : PosState) (op : PosOp)
    (hok : opOk st op = true) (hwf : ordersWF st)
    (happ : applyOp st op = (st', none)) :
    namesOf st'.products = namesOf st.products ∧ ordersWF st' ∧
    ∀ i (h1 : i < st.products.length) (h2 : i < st'.products.length),
      (st'.products[i]).stock + (openQty st' ((st.products[i]).product_name) : ℤ)
        = (st.products[i]).stock + (openQty st ((st.products[i]).product_name) : ℤ) := by
  cases op with
  | create items oid date =>
    simp only [applyOp] at happ
    simp only [opOk, Bool.and_eq_true, decide_eq_true_eq, List.all_eq_true] at hok
    by_cases hni : items = []
    · subst hni
      rw [createOrder_empty] at happ
      simp at happ
    · cases herr : (createLoop st.products items 0 []).err with
      | some e =>
        have h2 := congrArg Prod.snd happ
        rw [createOrder_snd st items oid date hni, herr] at h2
        simp at h2
      | none =>
        have hloopc := createLoop_of_err_none items st.products 0 [] herr
        rw [createOrder_ok st items oid date _ _ _ hni hloopc] at happ
        simp only [List.nil_append, zero_add] at happ
        simp only [Prod.mk.injEq, and_true] at happ
        subst happ
        refine ⟨?_, ⟨?_, ?_⟩, ?_⟩
        · exact namesOf_map_decStock st.products items
        · dsimp only
          rw [List.map_append, List.nodup_append]
          refine ⟨hwf.1, by simp, ?_⟩
          intro a ha hb
          simp only [List.map_cons, List.map_nil, List.mem_singleton] at hb
          obtain ⟨r, hr, hid⟩ := List.mem_map.mp ha
          subst hb
          exact (hok.2 r hr) hid
        · dsimp only
          intro o' ho'
          rcases List.mem_append.mp ho' with h | h
          · exact hwf.2 o' h
          · simp only [List.mem_singleton] at h
            subst h
            exact hok.1
        · intro i h1 h2
          dsimp only at h2 ⊢
          simp only [List.getElem_map]
          simp only [openQty, List.map_append, List.sum_append, List.map_cons,
            List.map_nil, List.sum_cons, List.sum_nil]
          simp only [decStock]
          omega
  | edit oid newItems =>
    simp only [applyOp] at happ
    simp only [opOk, decide_eq_true_eq] at hok
    cases hfind : findOrder st.orders oid with
    | none =>
      rw [editOrder_notFound st oid newItems hfind] at happ
      simp at happ
    | some o =>
      have hnodup : (o.items.map Prod.fst).Nodup := hwf.2 o (findOrder_mem _ _ _ hfind)
      have hdict : dictOf o.items = o.items := dictOf_eq_self _ hnodup
      cases herr : (createLoop (reverseItems st.products (dictOf o.items)) newItems 0 []).err with
      | some e =>
        have h2 := congrArg Prod.snd happ
        rw [editOrder_snd st oid newItems o hfind, herr] at h2
        simp at h2
      | none =>
        have hloopc := createLoop_of_err_none newItems _ 0 [] herr
        rw [editOrder_found_ok st oid newItems o _ _ _ hfind hloopc] at happ
        simp only [List.nil_append, zero_add] at happ
        simp only [Prod.mk.injEq, and_true] at happ
        subst happ
        refine ⟨?_, ⟨?_, ?_⟩, ?_⟩
        · dsimp only
          rw [namesOf_map_decStock, hdict, reverseItems_eq, namesOf_map_incStock]
        · dsimp only
          rw [ids_map_if st.orders oid
            ⟨oid, o.date, newItems,
              itemsTotal (reverseItems st.products (dictOf o.items)) newItems⟩ rfl]
          exact hwf.1
        · dsimp only
          intro o' ho'
          obtain ⟨r, hr, hro⟩ := List.mem_map.mp ho'
          by_cases h : r.order_id = oid
          · rw [if_pos h] at hro
            rw [← hro]
            exact hok
          · rw [if_neg h] at hro
            rw [← hro]
            exact hwf.2 r hr
        · intro i h1 h2
          dsimp only at h2 ⊢
          have hsum := sum_map_replace_add st.orders oid o
            ⟨oid, o.date, newItems,
              itemsTotal (reverseItems st.products (dictOf o.items)) newItems⟩
            (fun r => itemsQty r.items ((st.products[i]).product_name)) hwf.1 hfind
          dsimp only at hsum
          simp only [hdict, reverseItems_eq, List.getElem_map] at h2 ⊢
          simp only [openQty, decStock, incStock]
          dsimp only
          simp only [hdict, reverseItems_eq] at hsum
          omega
  | delete oid =>
    simp only [applyOp] at happ
    cases hfind : findOrder st.orders oid with
    | none =>
      rw [deleteOrder_notFound st oid hfind] at happ
      simp at happ
    | some o =>
      rw [deleteOrder_found st oid o hfind] at happ
      simp only [Prod.mk.injEq, and_true] at happ
      subst happ
      have hnodup : (o.items.map Prod.fst).Nodup := hwf.2 o (findOrder_mem _ _ _ hfind)
      have hdict : dictOf o.items = o.items := dictOf_eq_self _ hnodup
      refine ⟨?_, ⟨?_, ?_⟩, ?_⟩
      · dsimp only
        rw [reverseItems_eq, namesOf_map_incStock]
      · dsimp only
        exact List.Nodup.sublist (List.Sublist.map _ (List.filter_sublist _)) hwf.1
      · dsimp only
        intro o' ho'
        exact hwf.2 o' (List.mem_of_mem_filter ho')
      · intro i h1 h2
        dsimp only at h2 ⊢
        have hsum := sum_filter_ne_add st.orders oid o
          (fun r => itemsQty r.items ((st.products[i]).product_name)) hwf.1 hfind
        dsimp only at hsum
        simp only [hdict, reverseItems_eq, List.getElem_map] at h2 ⊢
        simp only [openQty, incStock]
        dsimp only
        omega
  | refund oid rmap =>
    simp only [applyOp] at happ
    cases hfind : findOrder st.orders oid with
    | none =>
      rw [refundOrder_notFound st oid rmap hfind] at happ
      simp at happ
    | some o =>
      have hnodup : (o.items.map Prod.fst).Nodup := hwf.2 o (findOrder_mem _ _ _ hfind)
      have hdict : dictOf o.items = o.items := dictOf_eq_self _ hnodup
      simp only [opOk, hfind, List.all_eq_true, decide_eq_true_eq] at hok
      rw [hdict] at hok
      by_cases hpos : rmap.filter (fun pq => pq.2 > 0) = []
      · rw [refundOrder_empty st oid rmap o hfind hpos] at happ
        simp at happ
      · cases herr : (refundLoop st.products (dictOf o.items)
            (rmap.filter (fun pq => pq.2 > 0)) 0 []).err with
        | some e =>
          have h2 := congrArg (fun x => x.2) happ
          dsimp only at h2
          rw [refundOrder_snd st oid rmap o hfind hpos, herr] at h2
          simp at h2
        | none =>
          have hloopc := refundLoop_of_err_none (dictOf o.items) st.products
            (rmap.filter (fun pq => pq.2 > 0)) 0 [] herr
          simp only [List.nil_append, zero_add] at hloopc
          have hqty : ∀ name,
              itemsQty (remainingItems (rmap.filter (fun pq => pq.2 > 0)) o.items) name
                + itemsQty (refundedItems (rmap.filter (fun pq => pq.2 > 0)) o.items) name
                = itemsQty o.items name :=
            fun name => itemsQty_remaining_add_refunded _ _ name hok
          by_cases hre : remainingItems (rmap.filter (fun pq => pq.2 > 0)) (dictOf o.items) = []
          · rw [hre] at hloopc
            rw [refundOrder_ok_deleted st oid rmap o _ _ hfind hpos hloopc] at happ
            dsimp only at happ
            simp only [Prod.mk.injEq, and_true] at happ
            subst happ
            refine ⟨?_, ⟨?_, ?_⟩, ?_⟩
            · dsimp only
              rw [namesOf_map_incStock]
            · dsimp only
              exact List.Nodup.sublist (List.Sublist.map _ (List.filter_sublist _)) hwf.1
            · dsimp only
              intro o' ho'
              exact hwf.2 o' (List.mem_of_mem_filter ho')
            · intro i h1 h2
              dsimp only at h2 ⊢
              have hsum := sum_filter_ne_add st.orders oid o
                (fun r => itemsQty r.items ((st.products[i]).product_name)) hwf.1 hfind
              dsimp only at hsum
              have hq := hqty ((st.products[i]).product_name)
              rw [hdict] at hre
              rw [hre] at hq
              simp only [itemsQty_nil, Nat.zero_add] at hq
              simp only [hdict, List.getElem_map] at h2 ⊢
              simp only [openQty, incStock]
              dsimp only
              omega
          · rw [refundOrder_ok_kept st oid rmap o _ _ _ hfind hpos hre hloopc] at happ
            dsimp only at happ
            simp only [Prod.mk.injEq, and_true] at happ
            subst happ
            refine ⟨?_, ⟨?_, ?_⟩, ?_⟩
            · dsimp only
              rw [namesOf_map_incStock]
            · dsimp only
              rw [ids_map_update]
              exact hwf.1
            · dsimp only
              intro o' ho'
              obtain ⟨r, hr, hro⟩ := List.mem_map.mp ho'
              by_cases h : r.order_id = oid
              · rw [if_pos h] at hro
                rw [← hro]
                show ((remainingItems (rmap.filter (fun pq => pq.2 > 0))
                  (dictOf o.items)).map Prod.fst).Nodup
                rw [hdict]
                exact List.Nodup.sublist (remainingItems_keys_sublist _ _) hnodup
              · rw [if_neg h] at hro
                rw [← hro]
                exact hwf.2 r hr
            · intro i h1 h2
              dsimp only at h2 ⊢
              have hconst : st.orders.map (fun r => if r.order_id = oid then
                    { r with
                        items := remainingItems (rmap.filter (fun pq => pq.2 > 0))
                          (dictOf o.items)
                        total := r.total
                          - refundTotal st.products (rmap.filter (fun pq => pq.2 > 0))
                              (dictOf o.items) } else r)
                  = st.orders.map (fun r => if r.order_id = oid then
                    { o with
                        items := remainingItems (rmap.filter (fun pq => pq.2 > 0))
                          (dictOf o.items)
                        total := o.total
                          - refundTotal st.products (rmap.filter (fun pq => pq.2 > 0))
                              (dictOf o.items) } else r) := by
                apply List.map_congr_left
                intro r hr
                by_cases h : r.order_id = oid
                · rw [if_pos h, if_pos h,
                    eq_of_mem_id st.orders oid o r hwf.1 hfind hr h]
                · rw [if_neg h, if_neg h]
              rw [hconst]
              have hsum := sum_map_replace_add st.orders oid o
                { o with
                    items := remainingItems (rmap.filter (fun pq => pq.2 > 0))
                      (dictOf o.items)
                    total := o.total
                      - refundTotal st.products (rmap.filter (fun pq => pq.2 > 0))
                          (dictOf o.items) }
                (fun r => itemsQty r.items ((st.products[i]).product_name)) hwf.1 hfind
              dsimp only at hsum
              have hq := hqty ((st.products[i]).product_name)
              simp only [hdict, List.getElem_map] at h2 hsum ⊢
              simp only [openQty, incStock]
              dsimp only
              omega

theorem runOps_nil (st : PosState) : runOps st [] = some st := rfl

theorem runOps_cons_ok (st st1 : PosState) (op : PosOp) (rest : List PosOp)
    (h : applyOp st op = (st1, none)) : runOps st (op :: rest) = runOps st1 rest := by
  rw [runOps, h]

theorem runOps_cons_err (st st1 : PosState) (op : PosOp) (rest : List PosOp) (e : PosError)
    (h : applyOp st op = (st1, some e)) : runOps st (op :: rest) = none := by
  rw [runOps, h]

theorem validRun_cons_ok (st st1 : PosState) (op : PosOp) (rest : List PosOp)
    (h : applyOp st op = (st1, none)) :
    validRun st (op :: rest) = (opOk st op && validRun st1 rest) := by
  rw [validRun, h]

theorem length_eq_of_namesOf (ps1 ps2 : List Product) (h : namesOf ps1 = namesOf ps2) :
    ps1.length = ps2.length := by
  have hl := congrArg List.length h
  simpa [namesOf] using hl

theorem product_name_eq_of_namesOf (ps1 ps2 : List Product) (h : namesOf ps1 = namesOf ps2)
    (i : ℕ) (h1 : i < ps1.length) (h2 : i < ps2.length) :
    (ps1[i]).product_name = (ps2[i]).product_name := by
  have hq := congrArg (fun l => l[i]?) h
  simp only [namesOf, List.getElem?_map] at hq
  rw [List.getElem?_eq_getElem h1, List.getElem?_eq_getElem h2] at hq
  simpa using hq

theorem runOps_conservation (ops : List PosOp) : ∀ (st st' : PosState),
    ordersWF st → runOps st ops = some st' → validRun st ops = true →
    namesOf st'.products = namesOf st.products ∧ ordersWF st' ∧
    ∀ i (h1 : i < st.products.length) (h2 : i < st'.products.length),
      (st'.products[i]).stock + (openQty st' ((st.products[i]).product_name) : ℤ)
        = (st.products[i]).stock + (openQty st ((st.products[i]).product_name) : ℤ) := by
  induction ops with
  | nil =>
    intro st st' hwf hrun _
    rw [runOps_nil] at hrun
    injection hrun with hst
    subst hst
    exact ⟨rfl, hwf, fun i h1 h2 => rfl⟩
  | cons op rest ih =>
    intro st st' hwf hrun hvalid
    rcases happ : applyOp st op with ⟨st1, err⟩
    cases err with
    | some e =>
      rw [runOps_cons_err st st1 op rest e happ] at hrun
      simp at hrun
    | none =>
      rw [runOps_cons_ok st st1 op rest happ] at hrun
      rw [validRun_cons_ok st st1 op rest happ, Bool.and_eq_true] at hvalid
      obtain ⟨hok, hvalid1⟩ := hvalid
      obtain ⟨hn1, hwf1, hc1⟩ := applyOp_conservation st st1 op hok hwf happ
      obtain ⟨hn2, hwf2, hc2⟩ := ih st1 st' hwf1 hrun hvalid1
      refine ⟨hn2.trans hn1, hwf2, ?_⟩
      intro i h1 h2
      have hlen1 : st1.products.length = st.products.length :=
        length_eq_of_namesOf _ _ hn1
      have h1' : i < st1.products.length := hlen1 ▸ h1
      have hname : (st1.products[i]).product_name = (st.products[i]).product_name :=
        product_name_eq_of_namesOf _ _ hn1 i h1' h1
      have e1 := hc1 i h1 h1'
      have e2 := hc2 i h1' h2
      rw [hname] at e2
      omega

/-! ## Further support lemmas for the claims -/

theorem createLoop_err_none (items : List LineItem) : ∀ (ps : List Product) (t : ℚ)
    (d : List LineItem), (items.map Prod.fst).Nodup →
    (∀ it ∈ items, (findProduct ps it.1).isSome ∧ (it.2 : ℤ) ≤ stockOf ps it.1) →
    (createLoop ps items t d).err = none := by
  induction items with
  | nil => intro ps t d _ _; rfl
  | cons jt rest ih =>
    intro ps t d hnd hsuff
    obtain ⟨m, k⟩ := jt
    obtain ⟨hks, hkle⟩ := hsuff (m, k) (List.mem_cons_self _ _)
    obtain ⟨p, hp⟩ := Option.isSome_iff_exists.mp hks
    rw [stockOf_eq ps m p hp] at hkle
    have hs : ¬ ((k : ℤ) > p.stock) := by omega
    rw [createLoop_cons_ok ps m k rest t d p hp hs]
    apply ih
    · simp only [List.map_cons, List.nodup_cons] at hnd
      exact hnd.2
    · intro it hit
      have hne : it.1 ≠ m := by
        intro heq
        simp only [List.map_cons, List.nodup_cons] at hnd
        exact hnd.1 (heq ▸ List.mem_map_of_mem Prod.fst hit)
      obtain ⟨h1, h2⟩ := hsuff it (List.mem_cons_of_mem _ hit)
      refine ⟨by rwa [isSome_findProduct_adjustStock], ?_⟩
      rwa [stockOf_adjustStock ps m it.1 _ hne]

theorem incStock_decStock (L : List LineItem) (p : Product) :
    incStock L (decStock L p) = p := by
  cases p
  simp only [incStock, decStock]
  simp only [Product.mk.injEq, true_and]
  ring

theorem map_incStock_map_decStock (ps : List Product) (L : List LineItem) :
    ((ps.map (decStock L)).map (incStock L)) = ps := by
  rw [List.map_map]
  have h : ∀ p ∈ ps, (incStock L ∘ decStock L) p = id p := by
    intro p _
    simp only [Function.comp, id]
    exact incStock_decStock L p
  rw [List.map_congr_left h, List.map_id]

theorem itemsQty_filter_ne (items : List LineItem) (n m : String) (h : m ≠ n) :
    itemsQty (items.filter (fun it => ¬ (it.1 = n))) m = itemsQty items m := by
  induction items with
  | nil => rfl
  | cons it rest ih =>
    obtain ⟨a, b⟩ := it
    rw [List.filter_cons]
    by_cases ha : a = n
    · rw [if_neg (by simp [ha])]
      rw [ih, itemsQty_cons, if_neg (by rw [ha]; exact fun hc => h hc.symm), Nat.zero_add]
    · rw [if_pos (by simp [ha])]
      rw [itemsQty_cons, itemsQty_cons, ih]

theorem hasProduct_false_names (ps : List Product) (n : String)
    (h : hasProduct ps n = false) : ∀ p ∈ ps, p.product_name ≠ n := by
  intro p hp heq
  have : hasProduct ps n = true := by
    simp only [hasProduct, List.any_eq_true]
    exact ⟨p, hp, by simp [heq]⟩
  rw [h] at this
  exact absurd this (by simp)

theorem keys_filter_sublist (items : List LineItem) (n : String) :
    ((items.filter (fun it => ¬ (it.1 = n))).map Prod.fst).Sublist (items.map Prod.fst) :=
  List.Sublist.map _ (List.filter_sublist _)

theorem filter_pos_eq_nil (rmap : List (String × ℕ)) (h : ∀ pq ∈ rmap, pq.2 = 0) :
    rmap.filter (fun pq => pq.2 > 0) = [] := by
  rw [List.filter_eq_nil_iff]
  intro pq hpq
  simp [h pq hpq]

/-! ## Claim theorems -/

/-- C5: For every Create(line_items) call with non-empty line items
(distinct product names, as the multiselect guarantees) where every
requested quantity is at most the product's current stock, the
operation succeeds: each listed product's stock is decremented by its
quantity, the persisted order's total equals `Σ price * qty` at
current catalog prices, and the order row carries the supplied fresh
id and current timestamp. -/
theorem createOrder_success (st : PosState) (items : List LineItem) (oid date : String)
    (hne : items ≠ [])
    (hnd : (items.map Prod.fst).Nodup)
    (hsuff : ∀ it ∈ items, (findProduct st.products it.1).isSome
      ∧ (it.2 : ℤ) ≤ stockOf st.products it.1) :
    createOrder st items oid date =
      ({ st with
          products := st.products.map (decStock items)
          orders := st.orders ++ [⟨oid, date, items, itemsTotal st.products items⟩] }, none) := by
  have herr := createLoop_err_none items st.products 0 [] hnd hsuff
  have hchar := createLoop_of_err_none items st.products 0 [] herr
  rw [createOrder_ok st items oid date _ _ _ hne hchar]
  simp only [List.nil_append, zero_add]

/-- Witness for C5 (Scenario A): catalog has `P1` with price 10 and
stock 5; creating an order for 3 units succeeds, leaves stock 2 and
total 30. -/
theorem createOrder_success_witness :
    (([("P1", 3)] : List LineItem) ≠ [] ∧
      (([("P1", 3)] : List LineItem).map Prod.fst).Nodup ∧
      (∀ it ∈ ([("P1", 3)] : List LineItem),
        (findProduct [⟨"p1", "P1", 4, 10, 5⟩] it.1).isSome
          ∧ (it.2 : ℤ) ≤ stockOf [⟨"p1", "P1", 4, 10, 5⟩] it.1)) ∧
    createOrder ⟨[⟨"p1", "P1", 4, 10, 5⟩], [], []⟩ [("P1", 3)] "O1" "d1" =
      (⟨[⟨"p1", "P1", 4, 10, 2⟩], [⟨"O1", "d1", [("P1", 3)], 30⟩], []⟩, none) := by
  refine ⟨⟨by decide, by decide, by decide⟩, ?_⟩
  rw [createOrder_success ⟨[⟨"p1", "P1", 4, 10, 5⟩], [], []⟩ [("P1", 3)] "O1" "d1"
    (by decide) (by decide) (by decide)]
  norm_num [decStock, itemsTotal, priceD, itemsQty, findProduct]

/-- C9: On a non-empty product catalog, the computed net profit equals
total income minus sold-product cost minus total expenses, where
sold-product cost is `Σ cost * (max stock across all products - stock)`. -/
theorem net_profit_formula (st : PosState) (hne : st.products ≠ []) :
    net_profit st = total_income st
      - (st.products.map (fun p =>
          p.original_price * ((maxStockVal st.products - p.stock : ℤ) : ℚ))).sum
      - total_expenses st := by
  rw [net_profit, sold_product_cost, if_neg (by simpa using hne)]
  simp only [sold_qty]
  ring

/-- A concrete two-product state with one order and one expense, used
as the C9 witness input. -/
def stC9 : PosState :=
  ⟨[⟨"p1", "P1", 4, 10, 2⟩, ⟨"p2", "P2", 3, 6, 7⟩],
    [⟨"O1", "d1", [("P1", 3)], 30⟩], [5]⟩

/-- Witness for C9 at a concrete two-product state with one order and
one expense. -/
theorem net_profit_formula_witness :
    stC9.products ≠ [] ∧
    net_profit stC9 = total_income stC9
      - (stC9.products.map (fun p =>
          p.original_price * ((maxStockVal stC9.products - p.stock : ℤ) : ℚ))).sum
      - total_expenses stC9 :=
  ⟨by decide, net_profit_formula stC9 (by decide)⟩

/-- C7: A Refund call whose requested quantities are all zero is
rejected with `EmptyRefundError` and changes nothing: no product
stock, no order line items, no order total. -/
theorem refund_all_zero_rejected (st : PosState) (oid : String) (rmap : List (String × ℕ))
    (o : Order) (hfind : findOrder st.orders oid = some o)
    (hzero : ∀ pq ∈ rmap, pq.2 = 0) :
    refundOrder st oid rmap = (st, 0, some .emptyRefund) :=
  refundOrder_empty st oid rmap o hfind (filter_pos_eq_nil rmap hzero)

/-- Witness for C7: an all-zero refund map on an existing order is
rejected and the state is returned unchanged. -/
theorem refund_all_zero_rejected_witness :
    (findOrder ((⟨[⟨"p1", "P1", 4, 10, 2⟩], [⟨"O1", "d1", [("P1", 3)], 30⟩],
        []⟩ : PosState)).orders "O1" = some ⟨"O1", "d1", [("P1", 3)], 30⟩ ∧
      (∀ pq ∈ ([("P1", 0)] : List (String × ℕ)), pq.2 = 0)) ∧
    refundOrder ⟨[⟨"p1", "P1", 4, 10, 2⟩], [⟨"O1", "d1", [("P1", 3)], 30⟩], []⟩
        "O1" [("P1", 0)]
      = (⟨[⟨"p1", "P1", 4, 10, 2⟩], [⟨"O1", "d1", [("P1", 3)], 30⟩], []⟩,
          0, some .emptyRefund) :=
  ⟨⟨by decide, by decide⟩,
    refund_all_zero_rejected ⟨[⟨"p1", "P1", 4, 10, 2⟩],
      [⟨"O1", "d1", [("P1", 3)], 30⟩], []⟩ "O1" [("P1", 0)]
      ⟨"O1", "d1", [("P1", 3)], 30⟩ (by decide) (by decide)⟩

/-- C1, code behavior at the failing input: creating an order for
`{A: 2, B: 3}` when `A` has stock 5 and `B` has stock 1 fails with
`InsufficientStockError` naming `B`, its requested quantity 3 and its
available stock 1, and adds no order row — but the decrement already
applied to `A` (5 → 3) is NOT reversed, contradicting the specified
full-rollback contract. -/
theorem create_insufficient_no_rollback :
    createOrder ⟨[⟨"p1", "A", 1, 10, 5⟩, ⟨"p2", "B", 1, 5, 1⟩], [], []⟩
        [("A", 2), ("B", 3)] "O1" "d1"
      = (⟨[⟨"p1", "A", 1, 10, 3⟩, ⟨"p2", "B", 1, 5, 1⟩], [], []⟩,
          some (.insufficientStock "B" 3 1)) := by
  decide

/-- C6: Create(order) followed by Delete(order) restores every
product's stock (indeed the whole products table) exactly to its
pre-create level, and leaves the orders table as it was. -/
theorem create_delete_roundtrip (st : PosState) (items : List LineItem) (oid date : String)
    (hne : items ≠ [])
    (hnd : (items.map Prod.fst).Nodup)
    (hsuff : ∀ it ∈ items, (findProduct st.products it.1).isSome
      ∧ (it.2 : ℤ) ≤ stockOf st.products it.1)
    (hfresh : ∀ r ∈ st.orders, r.order_id ≠ oid) :
    (deleteOrder (createOrder st items oid date).1 oid).1.products = st.products ∧
    (deleteOrder (createOrder st items oid date).1 oid).1.orders = st.orders ∧
    (deleteOrder (createOrder st items oid date).1 oid).2 = none := by
  rw [createOrder_success st items oid date hne hnd hsuff]
  dsimp only
  have hfind : findOrder (st.orders ++ [⟨oid, date, items, itemsTotal st.products items⟩]) oid
      = some ⟨oid, date, items, itemsTotal st.products items⟩ :=
    findOrder_append_right st.orders oid _ hfresh rfl
  rw [deleteOrder_found
    ({ st with
        products := st.products.map (decStock items)
        orders := st.orders ++ [⟨oid, date, items, itemsTotal st.products items⟩] })
    oid ⟨oid, date, items, itemsTotal st.products items⟩ hfind]
  dsimp only
  refine ⟨?_, ?_, rfl⟩
  · rw [dictOf_eq_self items hnd, reverseItems_eq, map_incStock_map_decStock]
  · rw [List.filter_append, filter_ne_of_not_mem st.orders oid hfresh]
    simp

/-- Witness for C6: creating an order for 3 of `P1` and 1 of `P2`
and then deleting it restores the original two-product catalog. -/
theorem create_delete_roundtrip_witness :
    (([("P1", 3), ("P2", 1)] : List LineItem) ≠ [] ∧
      (([("P1", 3), ("P2", 1)] : List LineItem).map Prod.fst).Nodup ∧
      (∀ it ∈ ([("P1", 3), ("P2", 1)] : List LineItem),
        (findProduct [⟨"p1", "P1", 4, 10, 5⟩, ⟨"p2", "P2", 3, 6, 7⟩] it.1).isSome
          ∧ (it.2 : ℤ) ≤ stockOf [⟨"p1", "P1", 4, 10, 5⟩, ⟨"p2", "P2", 3, 6, 7⟩] it.1) ∧
      (∀ r ∈ ([] : List Order), r.order_id ≠ "O1")) ∧
    (deleteOrder (createOrder ⟨[⟨"p1", "P1", 4, 10, 5⟩, ⟨"p2", "P2", 3, 6, 7⟩], [], []⟩
        [("P1", 3), ("P2", 1)] "O1" "d1").1 "O1").1.products
      = [⟨"p1", "P1", 4, 10, 5⟩, ⟨"p2", "P2", 3, 6, 7⟩] ∧
    (deleteOrder (createOrder ⟨[⟨"p1", "P1", 4, 10, 5⟩, ⟨"p2", "P2", 3, 6, 7⟩], [], []⟩
        [("P1", 3), ("P2", 1)] "O1" "d1").1 "O1").1.orders = [] ∧
    (deleteOrder (createOrder ⟨[⟨"p1", "P1", 4, 10, 5⟩, ⟨"p2", "P2", 3, 6, 7⟩], [], []⟩
        [("P1", 3), ("P2", 1)] "O1" "d1").1 "O1").2 = none :=
  ⟨⟨by decide, by decide, by decide, by decide⟩,
    create_delete_roundtrip ⟨[⟨"p1", "P1", 4, 10, 5⟩, ⟨"p2", "P2", 3, 6, 7⟩], [], []⟩
      [("P1", 3), ("P2", 1)] "O1" "d1" (by decide) (by decide) (by decide) (by decide)⟩

/-- C8: a successful Edit replaces only the order row's line items and
total; the row keeps its original id and its original `created_at`
date, and every other order row is untouched. -/
theorem editOrder_preserves_id_date (st : PosState) (oid : String)
    (newItems : List LineItem) (o : Order)
    (hfind : findOrder st.orders oid = some o)
    (hsuc : (editOrder st oid newItems).2 = none) :
    (editOrder st oid newItems).1.orders
      = st.orders.map (fun r => if r.order_id = oid then
          (⟨o.order_id, o.date, newItems,
            itemsTotal (reverseItems st.products (dictOf o.items)) newItems⟩ : Order)
          else r) := by
  have hsnd := editOrder_snd st oid newItems o hfind
  rw [hsuc] at hsnd
  have herr := hsnd.symm
  have hchar := createLoop_of_err_none newItems _ 0 [] herr
  rw [editOrder_found_ok st oid newItems o _ _ _ hfind hchar]
  dsimp only
  rw [findOrder_id st.orders oid o hfind]
  simp only [List.nil_append, zero_add]

/-- Witness for C8: editing the order `O1` from 3 units of `P1` to 1
unit keeps its id `O1` and its date `d1`. -/
theorem editOrder_preserves_id_date_witness :
    (findOrder ((⟨[⟨"p1", "P1", 4, 10, 2⟩], [⟨"O1", "d1", [("P1", 3)], 30⟩],
        []⟩ : PosState)).orders "O1" = some ⟨"O1", "d1", [("P1", 3)], 30⟩ ∧
      (editOrder ⟨[⟨"p1", "P1", 4, 10, 2⟩], [⟨"O1", "d1", [("P1", 3)], 30⟩], []⟩
        "O1" [("P1", 1)]).2 = none) ∧
    (editOrder ⟨[⟨"p1", "P1", 4, 10, 2⟩], [⟨"O1", "d1", [("P1", 3)], 30⟩], []⟩
        "O1" [("P1", 1)]).1.orders
      = ((⟨[⟨"p1", "P1", 4, 10, 2⟩], [⟨"O1", "d1", [("P1", 3)], 30⟩],
          []⟩ : PosState)).orders.map (fun r => if r.order_id = "O1" then
          (⟨(⟨"O1", "d1", [("P1", 3)], 30⟩ : Order).order_id,
            (⟨"O1", "d1", [("P1", 3)], 30⟩ : Order).date, [("P1", 1)],
            itemsTotal (reverseItems ((⟨[⟨"p1", "P1", 4, 10, 2⟩],
              [⟨"O1", "d1", [("P1", 3)], 30⟩], []⟩ : PosState)).products
              (dictOf (⟨"O1", "d1", [("P1", 3)], 30⟩ : Order).items)) [("P1", 1)]⟩ : Order)
          else r) :=
  ⟨⟨by decide, by rfl⟩,
    editOrder_preserves_id_date ⟨[⟨"p1", "P1", 4, 10, 2⟩],
      [⟨"O1", "d1", [("P1", 3)], 30⟩], []⟩ "O1" [("P1", 1)]
      ⟨"O1", "d1", [("P1", 3)], 30⟩ (by decide) (by rfl)⟩

/-- C4: when Edit's new line items are infeasible against the stock
levels left after reversing the old order (all new names present, some
new quantity exceeding the post-reversal stock), the operation aborts:
the old order row is unchanged, but the stock increments from the
reversal of the existing order's items are NOT re-reversed — every
product not named in the new items keeps the reversal increment. -/
theorem editOrder_insufficient_nonatomic (st : PosState) (oid : String)
    (newItems : List LineItem) (o : Order)
    (hfind : findOrder st.orders oid = some o)
    (hndo : (o.items.map Prod.fst).Nodup)
    (hndn : (newItems.map Prod.fst).Nodup)
    (hlook : ∀ it ∈ newItems,
      (findProduct (reverseItems st.products (dictOf o.items)) it.1).isSome)
    (hex : ∃ it ∈ newItems,
      stockOf (reverseItems st.products (dictOf o.items)) it.1 < (it.2 : ℤ)) :
    (editOrder st oid newItems).2.isSome ∧
    (editOrder st oid newItems).1.orders = st.orders ∧
    ∀ i (h1 : i < st.products.length)
      (h2 : i < (editOrder st oid newItems).1.products.length),
      (st.products[i]).product_name ∉ newItems.map Prod.fst →
      ((editOrder st oid newItems).1.products[i]).stock
        = (st.products[i]).stock
          + (itemsQty o.items ((st.products[i]).product_name) : ℤ) := by
  have herr := createLoop_err_of_insufficient newItems
    (reverseItems st.products (dictOf o.items)) 0 [] hndn hlook hex
  rcases hloop : createLoop (reverseItems st.products (dictOf o.items)) newItems 0 []
    with ⟨ps2, t, d, err⟩
  rw [hloop] at herr
  cases err with
  | none => simp at herr
  | some e =>
    obtain ⟨pre, hpre, hps⟩ := createLoop_products_upto newItems
      (reverseItems st.products (dictOf o.items)) 0 []
    rw [hloop] at hps
    dsimp only at hps
    rw [editOrder_found_err st oid newItems o ps2 t d e hfind hloop]
    dsimp only
    refine ⟨rfl, rfl, ?_⟩
    intro i h1 h2 hnot
    have hdict : dictOf o.items = o.items := dictOf_eq_self _ hndo
    have hnotpre : (st.products[i]).product_name ∉ pre.map Prod.fst := by
      intro hmem
      obtain ⟨it, hit, heq⟩ := List.mem_map.mp hmem
      exact hnot (heq ▸ List.mem_map_of_mem Prod.fst (hpre.sublist.subset hit))
    simp only [hps, hdict, reverseItems_eq, List.getElem_map]
    simp only [decStock, incStock]
    rw [itemsQty_eq_zero pre _ hnotpre]
    simp

/-- Witness for C4: order `O1` holds 3 units of `P1` (stock 2);
editing it to request 99 units fails, the order row survives
unchanged, and `P1`'s stock stays at the reversed level 5 — here shown
through the untouched second product `P2`, whose stock keeps the
(empty) reversal increment. -/
theorem editOrder_insufficient_nonatomic_witness :
    (findOrder ((⟨[⟨"p1", "P1", 4, 10, 2⟩, ⟨"p2", "P2", 3, 6, 7⟩],
        [⟨"O1", "d1", [("P1", 3)], 30⟩], []⟩ : PosState)).orders "O1"
        = some ⟨"O1", "d1", [("P1", 3)], 30⟩ ∧
      ((⟨"O1", "d1", [("P1", 3)], 30⟩ : Order).items.map Prod.fst).Nodup ∧
      (([("P1", 99)] : List LineItem).map Prod.fst).Nodup ∧
      (∀ it ∈ ([("P1", 99)] : List LineItem),
        (findProduct (reverseItems ((⟨[⟨"p1", "P1", 4, 10, 2⟩, ⟨"p2", "P2", 3, 6, 7⟩],
          [⟨"O1", "d1", [("P1", 3)], 30⟩], []⟩ : PosState)).products
          (dictOf (⟨"O1", "d1", [("P1", 3)], 30⟩ : Order).items)) it.1).isSome) ∧
      (∃ it ∈ ([("P1", 99)] : List LineItem),
        stockOf (reverseItems ((⟨[⟨"p1", "P1", 4, 10, 2⟩, ⟨"p2", "P2", 3, 6, 7⟩],
          [⟨"O1", "d1", [("P1", 3)], 30⟩], []⟩ : PosState)).products
          (dictOf (⟨"O1", "d1", [("P1", 3)], 30⟩ : Order).items)) it.1 < (it.2 : ℤ))) ∧
    ((editOrder ⟨[⟨"p1", "P1", 4, 10, 2⟩, ⟨"p2", "P2", 3, 6, 7⟩],
        [⟨"O1", "d1", [("P1", 3)], 30⟩], []⟩ "O1" [("P1", 99)]).2.isSome ∧
      (editOrder ⟨[⟨"p1", "P1", 4, 10, 2⟩, ⟨"p2", "P2", 3, 6, 7⟩],
        [⟨"O1", "d1", [("P1", 3)], 30⟩], []⟩ "O1" [("P1", 99)]).1.orders
        = ((⟨[⟨"p1", "P1", 4, 10, 2⟩, ⟨"p2", "P2", 3, 6, 7⟩],
            [⟨"O1", "d1", [("P1", 3)], 30⟩], []⟩ : PosState)).orders ∧
      ∀ i (h1 : i < ((⟨[⟨"p1", "P1", 4, 10, 2⟩, ⟨"p2", "P2", 3, 6, 7⟩],
          [⟨"O1", "d1", [("P1", 3)], 30⟩], []⟩ : PosState)).products.length)
        (h2 : i < (editOrder ⟨[⟨"p1", "P1", 4, 10, 2⟩, ⟨"p2", "P2", 3, 6, 7⟩],
          [⟨"O1", "d1", [("P1", 3)], 30⟩], []⟩ "O1" [("P1", 99)]).1.products.length),
        (((⟨[⟨"p1", "P1", 4, 10, 2⟩, ⟨"p2", "P2", 3, 6, 7⟩],
          [⟨"O1", "d1", [("P1", 3)], 30⟩], []⟩ : PosState)).products[i]).product_name
            ∉ ([("P1", 99)] : List LineItem).map Prod.fst →
        ((editOrder ⟨[⟨"p1", "P1", 4, 10, 2⟩, ⟨"p2", "P2", 3, 6, 7⟩],
            [⟨"O1", "d1", [("P1", 3)], 30⟩], []⟩ "O1" [("P1", 99)]).1.products[i]).stock
          = (((⟨[⟨"p1", "P1", 4, 10, 2⟩, ⟨"p2", "P2", 3, 6, 7⟩],
              [⟨"O1", "d1", [("P1", 3)], 30⟩], []⟩ : PosState)).products[i]).stock
            + (itemsQty (⟨"O1", "d1", [("P1", 3)], 30⟩ : Order).items
                ((((⟨[⟨"p1", "P1", 4, 10, 2⟩, ⟨"p2", "P2", 3, 6, 7⟩],
                  [⟨"O1", "d1", [("P1", 3)], 30⟩], []⟩ : PosState)).products[i]).product_name) : ℤ)) :=
  ⟨⟨by decide, by decide, by decide, by decide, by decide⟩,
    editOrder_insufficient_nonatomic ⟨[⟨"p1", "P1", 4, 10, 2⟩, ⟨"p2", "P2", 3, 6, 7⟩],
      [⟨"O1", "d1", [("P1", 3)], 30⟩], []⟩ "O1" [("P1", 99)]
      ⟨"O1", "d1", [("P1", 3)], 30⟩ (by decide) (by decide) (by decide)
      (by decide) (by decide)⟩

/-- C10: deleting or editing an order that holds a line item whose
product name is absent from the catalog does not fail with a
not-found error: that item's stock reversal is silently skipped and
the rest of the operation proceeds, so the missing product's units
are never returned to any stock count.  Delete succeeds with every
present product incremented exactly as if the missing item were not
in the order; the reversal both handlers perform equals the reversal
of the order with the missing item removed; and a successful Edit
computes its final products from that skipped reversal. -/
theorem missing_product_skipped (st : PosState) (oid : String) (o : Order)
    (n : String) (q : ℕ)
    (hfind : findOrder st.orders oid = some o)
    (hnd : (o.items.map Prod.fst).Nodup)
    (hmem : (n, q) ∈ o.items)
    (hmiss : hasProduct st.products n = false) :
    (deleteOrder st oid).2 = none ∧
    (deleteOrder st oid).1.orders = st.orders.filter (fun r => r.order_id ≠ oid) ∧
    (∀ i (h1 : i < st.products.length)
      (h2 : i < (deleteOrder st oid).1.products.length),
      ((deleteOrder st oid).1.products[i]).stock
        = (st.products[i]).stock
          + (itemsQty (o.items.filter (fun it => ¬ (it.1 = n)))
              ((st.products[i]).product_name) : ℤ)) ∧
    reverseItems st.products (dictOf o.items)
      = reverseItems st.products (dictOf (o.items.filter (fun it => ¬ (it.1 = n)))) ∧
    ∀ newItems, (editOrder st oid newItems).2 = none →
      (editOrder st oid newItems).1.products
        = (reverseItems st.products
            (dictOf (o.items.filter (fun it => ¬ (it.1 = n))))).map (decStock newItems) := by
  have hdict : dictOf o.items = o.items := dictOf_eq_self _ hnd
  have hnames := hasProduct_false_names st.products n hmiss
  have hfilnd : ((o.items.filter (fun it => ¬ (it.1 = n))).map Prod.fst).Nodup :=
    List.Nodup.sublist (keys_filter_sublist o.items n) hnd
  have hdict2 : dictOf (o.items.filter (fun it => ¬ (it.1 = n)))
      = o.items.filter (fun it => ¬ (it.1 = n)) := dictOf_eq_self _ hfilnd
  have hrev : reverseItems st.products (dictOf o.items)
      = reverseItems st.products (dictOf (o.items.filter (fun it => ¬ (it.1 = n)))) := by
    rw [hdict, hdict2, reverseItems_eq, reverseItems_eq]
    apply List.map_congr_left
    intro p hp
    simp only [incStock]
    rw [itemsQty_filter_ne o.items n p.product_name (hnames p hp)]
  refine ⟨?_, ?_, ?_, hrev, ?_⟩
  · rw [deleteOrder_found st oid o hfind]
  · rw [deleteOrder_found st oid o hfind]
  · intro i h1 h2
    simp only [deleteOrder_found st oid o hfind] at h2 ⊢
    simp only [hdict, reverseItems_eq, List.getElem_map] at h2 ⊢
    simp only [incStock]
    rw [itemsQty_filter_ne o.items n _ (hnames _ (List.getElem_mem h1))]
  · intro newItems hsuc
    have hsnd := editOrder_snd st oid newItems o hfind
    rw [hsuc] at hsnd
    have hchar := createLoop_of_err_none newItems _ 0 [] hsnd.symm
    rw [editOrder_found_ok st oid newItems o _ _ _ hfind hchar]
    dsimp only
    rw [hrev]

/-- Witness for C10: the order `O1` holds 2 units of `P1` and 4 units
of the deleted product `GONE`; deleting the order succeeds, returns
only the 2 units of `P1`, and the edit reversal skips `GONE` too. -/
theorem missing_product_skipped_witness :
    (findOrder ((⟨[⟨"p1", "P1", 4, 10, 3⟩],
        [⟨"O1", "d1", [("P1", 2), ("GONE", 4)], 44⟩], []⟩ : PosState)).orders "O1"
        = some ⟨"O1", "d1", [("P1", 2), ("GONE", 4)], 44⟩ ∧
      ((⟨"O1", "d1", [("P1", 2), ("GONE", 4)], 44⟩ : Order).items.map Prod.fst).Nodup ∧
      ("GONE", 4) ∈ (⟨"O1", "d1", [("P1", 2), ("GONE", 4)], 44⟩ : Order).items ∧
      hasProduct ((⟨[⟨"p1", "P1", 4, 10, 3⟩],
        [⟨"O1", "d1", [("P1", 2), ("GONE", 4)], 44⟩], []⟩ : PosState)).products "GONE"
        = false) ∧
    ((deleteOrder ⟨[⟨"p1", "P1", 4, 10, 3⟩],
        [⟨"O1", "d1", [("P1", 2), ("GONE", 4)], 44⟩], []⟩ "O1").2 = none ∧
      (deleteOrder ⟨[⟨"p1", "P1", 4, 10, 3⟩],
          [⟨"O1", "d1", [("P1", 2), ("GONE", 4)], 44⟩], []⟩ "O1").1.orders
        = ((⟨[⟨"p1", "P1", 4, 10, 3⟩],
            [⟨"O1", "d1", [("P1", 2), ("GONE", 4)], 44⟩],
            []⟩ : PosState)).orders.filter (fun r => r.order_id ≠ "O1") ∧
      (∀ i (h1 : i < ((⟨[⟨"p1", "P1", 4, 10, 3⟩],
          [⟨"O1", "d1", [("P1", 2), ("GONE", 4)], 44⟩], []⟩ : PosState)).products.length)
        (h2 : i < (deleteOrder ⟨[⟨"p1", "P1", 4, 10, 3⟩],
          [⟨"O1", "d1", [("P1", 2), ("GONE", 4)], 44⟩], []⟩ "O1").1.products.length),
        ((deleteOrder ⟨[⟨"p1", "P1", 4, 10, 3⟩],
            [⟨"O1", "d1", [("P1", 2), ("GONE", 4)], 44⟩], []⟩ "O1").1.products[i]).stock
          = (((⟨[⟨"p1", "P1", 4, 10, 3⟩],
              [⟨"O1", "d1", [("P1", 2), ("GONE", 4)], 44⟩],
              []⟩ : PosState)).products[i]).stock
            + (itemsQty ((⟨"O1", "d1", [("P1", 2), ("GONE", 4)],
                44⟩ : Order).items.filter (fun it => ¬ (it.1 = "GONE")))
                ((((⟨[⟨"p1", "P1", 4, 10, 3⟩],
                  [⟨"O1", "d1", [("P1", 2), ("GONE", 4)], 44⟩],
                  []⟩ : PosState)).products[i]).product_name) : ℤ)) ∧
      reverseItems ((⟨[⟨"p1", "P1", 4, 10, 3⟩],
          [⟨"O1", "d1", [("P1", 2), ("GONE", 4)], 44⟩], []⟩ : PosState)).products
          (dictOf (⟨"O1", "d1", [("P1", 2), ("GONE", 4)], 44⟩ : Order).items)
        = reverseItems ((⟨[⟨"p1", "P1", 4, 10, 3⟩],
            [⟨"O1", "d1", [("P1", 2), ("GONE", 4)], 44⟩], []⟩ : PosState)).products
            (dictOf ((⟨"O1", "d1", [("P1", 2), ("GONE", 4)],
              44⟩ : Order).items.filter (fun it => ¬ (it.1 = "GONE")))) ∧
      ∀ newItems, (editOrder ⟨[⟨"p1", "P1", 4, 10, 3⟩],
          [⟨"O1", "d1", [("P1", 2), ("GONE", 4)], 44⟩], []⟩ "O1" newItems).2 = none →
        (editOrder ⟨[⟨"p1", "P1", 4, 10, 3⟩],
            [⟨"O1", "d1", [("P1", 2), ("GONE", 4)], 44⟩], []⟩ "O1" newItems).1.products
          = (reverseItems ((⟨[⟨"p1", "P1", 4, 10, 3⟩],
              [⟨"O1", "d1", [("P1", 2), ("GONE", 4)], 44⟩], []⟩ : PosState)).products
              (dictOf ((⟨"O1", "d1", [("P1", 2), ("GONE", 4)],
                44⟩ : Order).items.filter (fun it => ¬ (it.1 = "GONE"))))).map
              (decStock newItems)) :=
  ⟨⟨by decide, by decide, by decide, by decide⟩,
    missing_product_skipped ⟨[⟨"p1", "P1", 4, 10, 3⟩],
      [⟨"O1", "d1", [("P1", 2), ("GONE", 4)], 44⟩], []⟩ "O1"
      ⟨"O1", "d1", [("P1", 2), ("GONE", 4)], 44⟩ "GONE" 4
      (by decide) (by decide) (by decide) (by decide)⟩

/-- C3: a Refund whose per-item quantities lie between 0 and the
original quantities, with at least one positive, succeeds: each
refunded line item's product stock is incremented by its refund
quantity, the refunded amount `Σ price * refund_qty` is returned to
the caller, line items are kept with their positive remainders only,
and the order row is rewritten with the remaining items and its total
reduced by the refunded amount — or deleted when nothing remains. -/
theorem refundOrder_partial_correct (st : PosState) (oid : String)
    (rmap : List (String × ℕ)) (o : Order)
    (hfind : findOrder st.orders oid = some o)
    (hndo : (o.items.map Prod.fst).Nodup)
    (hle : ∀ it ∈ o.items, getRefund (rmap.filter (fun pq => pq.2 > 0)) it.1 ≤ it.2)
    (hpos : rmap.filter (fun pq => pq.2 > 0) ≠ [])
    (hlook : ∀ it ∈ o.items, 0 < getRefund (rmap.filter (fun pq => pq.2 > 0)) it.1 →
      (findProduct st.products it.1).isSome) :
    (refundOrder st oid rmap).2.2 = none ∧
    (refundOrder st oid rmap).2.1
      = refundTotal st.products (rmap.filter (fun pq => pq.2 > 0)) o.items ∧
    (refundOrder st oid rmap).1.products
      = st.products.map (incStock (refundedItems (rmap.filter (fun pq => pq.2 > 0)) o.items)) ∧
    (remainingItems (rmap.filter (fun pq => pq.2 > 0)) o.items = [] →
      (refundOrder st oid rmap).1.orders = st.orders.filter (fun r => r.order_id ≠ oid)) ∧
    (remainingItems (rmap.filter (fun pq => pq.2 > 0)) o.items ≠ [] →
      (refundOrder st oid rmap).1.orders = st.orders.map (fun r =>
        if r.order_id = oid then
          { r with
              items := remainingItems (rmap.filter (fun pq => pq.2 > 0)) o.items
              total := r.total
                - refundTotal st.products (rmap.filter (fun pq => pq.2 > 0)) o.items }
        else r)) := by
  have hdict : dictOf o.items = o.items := dictOf_eq_self _ hndo
  have herr : (refundLoop st.products (dictOf o.items)
      (rmap.filter (fun pq => pq.2 > 0)) 0 []).err = none := by
    apply refundLoop_err_none
    rw [hdict]
    exact hlook
  have hchar := refundLoop_of_err_none (dictOf o.items) st.products
    (rmap.filter (fun pq => pq.2 > 0)) 0 [] herr
  simp only [List.nil_append, zero_add, hdict] at hchar
  by_cases hre : remainingItems (rmap.filter (fun pq => pq.2 > 0)) o.items = []
  · have hloopc : refundLoop st.products (dictOf o.items)
        (rmap.filter (fun pq => pq.2 > 0)) 0 []
        = ⟨st.products.map (incStock (refundedItems (rmap.filter (fun pq => pq.2 > 0)) o.items)),
            refundTotal st.products (rmap.filter (fun pq => pq.2 > 0)) o.items, [], none⟩ := by
      rw [hdict, hchar, hre]
    rw [refundOrder_ok_deleted st oid rmap o _ _ hfind hpos hloopc]
    dsimp only
    exact ⟨rfl, rfl, rfl, fun _ => rfl, fun hcon => absurd hre hcon⟩
  · have hloopc : refundLoop st.products (dictOf o.items)
        (rmap.filter (fun pq => pq.2 > 0)) 0 []
        = ⟨st.products.map (incStock (refundedItems (rmap.filter (fun pq => pq.2 > 0)) o.items)),
            refundTotal st.products (rmap.filter (fun pq => pq.2 > 0)) o.items,
            remainingItems (rmap.filter (fun pq => pq.2 > 0)) o.items, none⟩ := by
      rw [hdict, hchar]
    rw [refundOrder_ok_kept st oid rmap o _ _ _ hfind hpos hre hloopc]
    dsimp only
    exact ⟨rfl, rfl, rfl, fun hcon => absurd hcon hre, fun _ => rfl⟩

/-- Witness for C3 (Scenario D shape): order `O1` holds 3 of `P1` and
2 of `P2`; refunding 1 unit of `P1` keeps `{P1: 2, P2: 2}`, returns
10, raises `P1`'s stock by 1 and leaves `P2`'s stock unchanged. -/
theorem refundOrder_partial_correct_witness :
    (findOrder ((⟨[⟨"p1", "P1", 4, 10, 2⟩, ⟨"p2", "P2", 3, 6, 5⟩],
        [⟨"O1", "d1", [("P1", 3), ("P2", 2)], 42⟩], []⟩ : PosState)).orders "O1"
        = some ⟨"O1", "d1", [("P1", 3), ("P2", 2)], 42⟩ ∧
      ((⟨"O1", "d1", [("P1", 3), ("P2", 2)], 42⟩ : Order).items.map Prod.fst).Nodup ∧
      (∀ it ∈ (⟨"O1", "d1", [("P1", 3), ("P2", 2)], 42⟩ : Order).items,
        getRefund (([("P1", 1)] : List (String × ℕ)).filter (fun pq => pq.2 > 0)) it.1
          ≤ it.2) ∧
      ([("P1", 1)] : List (String × ℕ)).filter (fun pq => pq.2 > 0) ≠ [] ∧
      (∀ it ∈ (⟨"O1", "d1", [("P1", 3), ("P2", 2)], 42⟩ : Order).items,
        0 < getRefund (([("P1", 1)] : List (String × ℕ)).filter (fun pq => pq.2 > 0)) it.1 →
        (findProduct [⟨"p1", "P1", 4, 10, 2⟩, ⟨"p2", "P2", 3, 6, 5⟩] it.1).isSome)) ∧
    ((refundOrder ⟨[⟨"p1", "P1", 4, 10, 2⟩, ⟨"p2", "P2", 3, 6, 5⟩],
        [⟨"O1", "d1", [("P1", 3), ("P2", 2)], 42⟩], []⟩ "O1" [("P1", 1)]).2.2 = none ∧
      (refundOrder ⟨[⟨"p1", "P1", 4, 10, 2⟩, ⟨"p2", "P2", 3, 6, 5⟩],
          [⟨"O1", "d1", [("P1", 3), ("P2", 2)], 42⟩], []⟩ "O1" [("P1", 1)]).2.1
        = refundTotal [⟨"p1", "P1", 4, 10, 2⟩, ⟨"p2", "P2", 3, 6, 5⟩]
            (([("P1", 1)] : List (String × ℕ)).filter (fun pq => pq.2 > 0))
            (⟨"O1", "d1", [("P1", 3), ("P2", 2)], 42⟩ : Order).items ∧
      (refundOrder ⟨[⟨"p1", "P1", 4, 10, 2⟩, ⟨"p2", "P2", 3, 6, 5⟩],
          [⟨"O1", "d1", [("P1", 3), ("P2", 2)], 42⟩], []⟩ "O1" [("P1", 1)]).1.products
        = ([⟨"p1", "P1", 4, 10, 2⟩, ⟨"p2", "P2", 3, 6, 5⟩] : List Product).map
            (incStock (refundedItems
              (([("P1", 1)] : List (String × ℕ)).filter (fun pq => pq.2 > 0))
              (⟨"O1", "d1", [("P1", 3), ("P2", 2)], 42⟩ : Order).items)) ∧
      (remainingItems (([("P1", 1)] : List (String × ℕ)).filter (fun pq => pq.2 > 0))
          (⟨"O1", "d1", [("P1", 3), ("P2", 2)], 42⟩ : Order).items = [] →
        (refundOrder ⟨[⟨"p1", "P1", 4, 10, 2⟩, ⟨"p2", "P2", 3, 6, 5⟩],
            [⟨"O1", "d1", [("P1", 3), ("P2", 2)], 42⟩], []⟩ "O1" [("P1", 1)]).1.orders
          = ((⟨[⟨"p1", "P1", 4, 10, 2⟩, ⟨"p2", "P2", 3, 6, 5⟩],
              [⟨"O1", "d1", [("P1", 3), ("P2", 2)], 42⟩],
              []⟩ : PosState)).orders.filter (fun r => r.order_id ≠ "O1")) ∧
      (remainingItems (([("P1", 1)] : List (String × ℕ)).filter (fun pq => pq.2 > 0))
          (⟨"O1", "d1", [("P1", 3), ("P2", 2)], 42⟩ : Order).items ≠ [] →
        (refundOrder ⟨[⟨"p1", "P1", 4, 10, 2⟩, ⟨"p2", "P2", 3, 6, 5⟩],
            [⟨"O1", "d1", [("P1", 3), ("P2", 2)], 42⟩], []⟩ "O1" [("P1", 1)]).1.orders
          = ((⟨[⟨"p1", "P1", 4, 10, 2⟩, ⟨"p2", "P2", 3, 6, 5⟩],
              [⟨"O1", "d1", [("P1", 3), ("P2", 2)], 42⟩],
              []⟩ : PosState)).orders.map (fun r =>
              if r.order_id = "O1" then
                { r with
                    items := remainingItems
                      (([("P1", 1)] : List (String × ℕ)).filter (fun pq => pq.2 > 0))
                      (⟨"O1", "d1", [("P1", 3), ("P2", 2)], 42⟩ : Order).items
                    total := r.total
                      - refundTotal [⟨"p1", "P1", 4, 10, 2⟩, ⟨"p2", "P2", 3, 6, 5⟩]
                          (([("P1", 1)] : List (String × ℕ)).filter (fun pq => pq.2 > 0))
                          (⟨"O1", "d1", [("P1", 3), ("P2", 2)], 42⟩ : Order).items }
              else r))) :=
  ⟨⟨by decide, by decide, by decide, by decide, by decide⟩,
    refundOrder_partial_correct ⟨[⟨"p1", "P1", 4, 10, 2⟩, ⟨"p2", "P2", 3, 6, 5⟩],
      [⟨"O1", "d1", [("P1", 3), ("P2", 2)], 42⟩], []⟩ "O1" [("P1", 1)]
      ⟨"O1", "d1", [("P1", 3), ("P2", 2)], 42⟩
      (by decide) (by decide) (by decide) (by decide) (by decide)⟩

/-- C2: over any sequence of successful Create/Edit/Delete/Refund
operations started from a pure catalog state (no open orders), and
with each operation satisfying the side conditions the UI enforces
(`opOk`), every product's stock plus the total quantity the open
orders hold for its name equals the product's stock at the start of
the sequence. -/
theorem orders_stock_conservation (st0 st' : PosState) (ops : List PosOp)
    (h0 : st0.orders = [])
    (hrun : runOps st0 ops = some st')
    (hvalid : validRun st0 ops = true) :
    st'.products.length = st0.products.length ∧
    ∀ i (h1 : i < st0.products.length) (h2 : i < st'.products.length),
      (st'.products[i]).stock + (openQty st' ((st0.products[i]).product_name) : ℤ)
        = (st0.products[i]).stock := by
  have hwf : ordersWF st0 := by
    constructor
    · rw [h0]; exact List.nodup_nil
    · intro o ho
      rw [h0] at ho
      simp at ho
  obtain ⟨hn, hwf2, hc⟩ := runOps_conservation ops st0 st' hwf hrun hvalid
  refine ⟨length_eq_of_namesOf _ _ hn, ?_⟩
  intro i h1 h2
  have hcc := hc i h1 h2
  have hzero : openQty st0 ((st0.products[i]).product_name) = 0 := by
    rw [openQty, h0]
    rfl
  rw [hzero] at hcc
  simpa using hcc

/-- The catalog-only start state for the C2 witness. -/
def stC2 : PosState := ⟨[⟨"p1", "P1", 4, 10, 5⟩, ⟨"p2", "P2", 3, 6, 7⟩], [], []⟩

/-- The C2 witness operation sequence: a create, an edit, and a
partial refund. -/
def opsC2 : List PosOp :=
  [.create [("P1", 3), ("P2", 2)] "O1" "d1", .edit "O1" [("P1", 2)],
    .refund "O1" [("P1", 1)]]

/-- The final state of the C2 witness run. -/
def stC2fin : PosState :=
  ⟨[⟨"p1", "P1", 4, 10, 4⟩, ⟨"p2", "P2", 3, 6, 7⟩],
    [⟨"O1", "d1", [("P1", 1)], 10⟩], []⟩

/-- State after the C2 witness create. -/
def stC2A : PosState :=
  ⟨[⟨"p1", "P1", 4, 10, 2⟩, ⟨"p2", "P2", 3, 6, 5⟩],
    [⟨"O1", "d1", [("P1", 3), ("P2", 2)], 42⟩], []⟩

/-- State after the C2 witness edit. -/
def stC2B : PosState :=
  ⟨[⟨"p1", "P1", 4, 10, 3⟩, ⟨"p2", "P2", 3, 6, 7⟩],
    [⟨"O1", "d1", [("P1", 2)], 20⟩], []⟩

theorem stepC2_1 : applyOp stC2 (.create [("P1", 3), ("P2", 2)] "O1" "d1") = (stC2A, none) := by
  show createOrder stC2 [("P1", 3), ("P2", 2)] "O1" "d1" = (stC2A, none)
  rw [createOrder_success stC2 [("P1", 3), ("P2", 2)] "O1" "d1"
    (by decide) (by decide) (by decide)]
  have h12 : ("P1" : String) ≠ "P2" := by decide
  have h21 : ("P2" : String) ≠ "P1" := by decide
  simp only [stC2, stC2A, decStock, itemsTotal, priceD, findProduct, itemsQty,
    List.filter_cons, List.filter_nil, List.map_cons, List.map_nil, List.sum_cons,
    List.sum_nil, List.head?, h12, h21, if_neg, if_pos, if_true, if_false]
  norm_num

theorem stepC2_2 : applyOp stC2A (.edit "O1" [("P1", 2)]) = (stC2B, none) := by
  show editOrder stC2A "O1" [("P1", 2)] = (stC2B, none)
  have herr : (createLoop (reverseItems stC2A.products
      (dictOf (⟨"O1", "d1", [("P1", 3), ("P2", 2)], 42⟩ : Order).items))
      [("P1", 2)] 0 []).err = none := by rfl
  have hchar := createLoop_of_err_none [("P1", 2)] _ 0 [] herr
  rw [editOrder_found_ok stC2A "O1" [("P1", 2)] ⟨"O1", "d1", [("P1", 3), ("P2", 2)], 42⟩
    _ _ _ (by decide) hchar]
  have h12 : ("P1" : String) ≠ "P2" := by decide
  have h21 : ("P2" : String) ≠ "P1" := by decide
  simp only [stC2A, stC2B, decStock, itemsTotal, priceD, findProduct, itemsQty,
    reverseItems, dictOf, insertDict, adjustStock, hasProduct,
    List.filter_cons, List.filter_nil, List.map_cons, List.map_nil, List.sum_cons,
    List.sum_nil, List.head?, List.foldl_cons, List.foldl_nil, List.any_cons,
    List.any_nil, h12, h21, if_neg, if_pos, if_true, if_false]
  norm_num [decStock, incStock, itemsQty, List.filter_cons, List.filter_nil, h12, h21]

theorem stepC2_3 : applyOp stC2B (.refund "O1" [("P1", 1)]) = (stC2fin, none) := by
  show ((refundOrder stC2B "O1" [("P1", 1)]).1,
    (refundOrder stC2B "O1" [("P1", 1)]).2.2) = (stC2fin, none)
  have herr : (refundLoop stC2B.products
      (dictOf (⟨"O1", "d1", [("P1", 2)], 20⟩ : Order).items)
      (([("P1", 1)] : List (String × ℕ)).filter (fun pq => pq.2 > 0)) 0 []).err = none := by
    rfl
  have hchar := refundLoop_of_err_none
    (dictOf (⟨"O1", "d1", [("P1", 2)], 20⟩ : Order).items) stC2B.products
    (([("P1", 1)] : List (String × ℕ)).filter (fun pq => pq.2 > 0)) 0 [] herr
  simp only [List.nil_append, zero_add] at hchar
  rw [refundOrder_ok_kept stC2B "O1" [("P1", 1)] ⟨"O1", "d1", [("P1", 2)], 20⟩
    _ _ _ (by decide) (by decide) (by decide) hchar]
  have h12 : ("P1" : String) ≠ "P2" := by decide
  have h21 : ("P2" : String) ≠ "P1" := by decide
  simp only [stC2B, stC2fin, incStock, refundedItems, remainingItems, refundTotal,
    getRefund, priceD, findProduct, itemsQty, dictOf, insertDict, adjustStock,
    List.filter_cons, List.filter_nil, List.map_cons, List.map_nil, List.sum_cons,
    List.sum_nil, List.head?, List.foldl_cons, List.foldl_nil, List.any_cons,
    List.any_nil, List.filterMap_cons, List.filterMap_nil,
    h12, h21, if_neg, if_pos, if_true, if_false]
  norm_num [decStock, incStock, itemsQty, getRefund, List.filter_cons, List.filter_nil,
    List.head?, List.filterMap_cons, List.filterMap_nil, h12, h21]

theorem runOpsC2 : runOps stC2 opsC2 = some stC2fin := by
  show runOps stC2 ((.create [("P1", 3), ("P2", 2)] "O1" "d1")
    :: (.edit "O1" [("P1", 2)]) :: (.refund "O1" [("P1", 1)]) :: []) = some stC2fin
  rw [runOps_cons_ok _ stC2A _ _ stepC2_1]
  rw [runOps_cons_ok _ stC2B _ _ stepC2_2]
  rw [runOps_cons_ok _ stC2fin _ _ stepC2_3]
  rfl

theorem validRunC2 : validRun stC2 opsC2 = true := by
  show validRun stC2 ((.create [("P1", 3), ("P2", 2)] "O1" "d1")
    :: (.edit "O1" [("P1", 2)]) :: (.refund "O1" [("P1", 1)]) :: []) = true
  rw [validRun_cons_ok _ stC2A _ _ stepC2_1]
  rw [validRun_cons_ok _ stC2B _ _ stepC2_2]
  rw [validRun_cons_ok _ stC2fin _ _ stepC2_3]
  decide

/-- Witness for C2: running the concrete create/edit/refund sequence
leaves P1 with stock 4 plus 1 open unit (initial 5) and P2 with
stock 7 plus 0 open units (initial 7). -/
theorem orders_stock_conservation_witness :
    (stC2.orders = [] ∧ runOps stC2 opsC2 = some stC2fin ∧
      validRun stC2 opsC2 = true) ∧
    (stC2fin.products.length = stC2.products.length ∧
      ∀ i (h1 : i < stC2.products.length) (h2 : i < stC2fin.products.length),
        (stC2fin.products[i]).stock
            + (openQty stC2fin ((stC2.products[i]).product_name) : ℤ)
          = (stC2.products[i]).stock) :=
  ⟨⟨rfl, runOpsC2, validRunC2⟩,
    orders_stock_conservation stC2 stC2fin opsC2 rfl runOpsC2 validRunC2⟩
